import Mathlib

/-!
Shallow embedding of the cc-init template-deployment engine.

Paths are modelled as lists of path segments (the result of splitting on the
path separator). The destination filesystem is an association list from paths
to nodes; a lookup returns the first binding, and all mutation helpers only
ever cons bindings for paths that are absent, mirroring the create-only
behaviour of the Go code (OSFileSystem in fs.go, DryRunFileSystem likewise,
TemplateManager in template.go, Engine in engine.go, validateConfig in cli.go).
-/

/-- A filesystem path, as a list of segments. -/
abbrev FPath := List String

/-- A node on the destination filesystem: a directory or a file with content
and permission bits (permissions as plain naturals). -/
inductive FSNode where
  | dir (perm : Nat)
  | file (content : String) (perm : Nat)
deriving DecidableEq, Repr

/-- Whether a node is a directory (Go `FileInfo.IsDir`). -/
def FSNode.isDir : FSNode → Bool
  | .dir _ => true
  | .file _ _ => false

/-- Destination filesystem state: an association list from paths to nodes.
Lookup returns the first binding; helpers only add bindings at absent keys. -/
abbrev FSState := List (FPath × FSNode)

/-- Look up the node stored at a path (Go `os.Stat`, with `Exists` being
`isSome` of this, exactly as `OSFileSystem.Exists` is `os.Stat` succeeding). -/
def lookupFS : FSState → FPath → Option FSNode
  | [], _ => none
  | (q, n) :: rest, p => if p = q then some n else lookupFS rest p

/-- Remove every binding of a path (Go `os.Remove` on our assoc list). -/
def removeAllFS : FSState → FPath → FSState
  | [], _ => []
  | (q, n) :: rest, p => if q = p then removeAllFS rest p else (q, n) :: removeAllFS rest p

/-- Boolean test: the path is bound to a file. -/
def isFileB (s : FSState) (p : FPath) : Bool :=
  match lookupFS s p with
  | some (.file _ _) => true
  | _ => false

/-- Boolean test: the path is bound to a directory. -/
def isDirB (s : FSState) (p : FPath) : Bool :=
  match lookupFS s p with
  | some (.dir _) => true
  | _ => false

/-- Errors surfaced by the modelled operations. The first two carry the texts
"path exists but is not a directory" / "path exists but is a directory" used
both by the engine and by OSFileSystem; `mkdirNotDir` is the ENOTDIR failure
of `os.MkdirAll`; `readFailed` is "failed to read embedded file"; the last
three are the failures of `validateConfig`. -/
inductive FSErr where
  | pathNotDir (p : FPath)
  | pathIsDir (p : FPath)
  | mkdirNotDir (p : FPath)
  | readFailed (p : FPath)
  | targetMissing (p : FPath)
  | targetNotDir (p : FPath)
  | noWritePermission (p : FPath)
deriving DecidableEq, Repr

/-- Lexical path cleaning, as `filepath.Clean` acts on an absolute path:
"." segments are dropped and ".." pops the previous segment (or is dropped at
the root). `filepath.Join` is modelled as list append followed by this. -/
def cleanSegs (segs : List String) : List String :=
  segs.foldl
    (fun acc seg =>
      if seg = "." then acc
      else if seg = ".." then acc.dropLast
      else acc ++ [seg]) []

/-- The nonempty prefixes of a path, shortest first. `os.MkdirAll` ensures
each of these is a directory, from the root downward. -/
def prefixesUp (p : FPath) : List FPath :=
  (List.range p.length).map (fun i => p.take (i + 1))

/-- One pass of `os.MkdirAll` over a list of path prefixes: an existing
directory is kept, an existing file is an ENOTDIR error, an absent path gets
a fresh directory with the requested permission. -/
def mkdirSteps (perm : Nat) : FSState → List FPath → Except FSErr FSState
  | s, [] => .ok s
  | s, q :: qs =>
    match lookupFS s q with
    | some (.dir _) => mkdirSteps perm s qs
    | some (.file _ _) => .error (.mkdirNotDir q)
    | none => mkdirSteps perm ((q, .dir perm) :: s) qs

/-- `os.MkdirAll(path, perm)`: ensure every prefix of the path is a directory. -/
def mkdirAll (s : FSState) (p : FPath) (perm : Nat) : Except FSErr FSState :=
  mkdirSteps perm s (prefixesUp p)

/-- `OSFileSystem.CreateDir` (fs.go): no-op if a directory already exists at
the path, "path exists but is not a directory" if a non-directory occupies it,
otherwise `os.MkdirAll`. -/
def osCreateDir (s : FSState) (p : FPath) (perm : Nat) : Except FSErr FSState :=
  match lookupFS s p with
  | some (.dir _) => .ok s
  | some (.file _ _) => .error (.pathNotDir p)
  | none => mkdirAll s p perm

/-- `OSFileSystem.CreateFile` (fs.go): no-op if a non-directory already exists
at the path, "path exists but is a directory" if a directory occupies it,
otherwise create the parent via `CreateDir(filepath.Dir(path), 0755)` and
write the content. -/
def osCreateFile (s : FSState) (p : FPath) (c : String) (perm : Nat) :
    Except FSErr FSState :=
  match lookupFS s p with
  | some (.file _ _) => .ok s
  | some (.dir _) => .error (.pathIsDir p)
  | none =>
    match osCreateDir s p.dropLast 0o755 with
    | .error e => .error e
    | .ok s' => .ok ((p, .file c perm) :: s')

/-- `DryRunFileSystem.CreateDir` (fs.go): same existence/kind checks as the
real variant, but never mutates; a "would create"/"would skip" notice is
logged instead. -/
def dryCreateDir (s : FSState) (p : FPath) (_perm : Nat) : Except FSErr FSState :=
  match lookupFS s p with
  | some (.dir _) => .ok s
  | some (.file _ _) => .error (.pathNotDir p)
  | none => .ok s

/-- `DryRunFileSystem.CreateFile` (fs.go): same checks, no mutation. -/
def dryCreateFile (s : FSState) (p : FPath) (_c : String) (_perm : Nat) :
    Except FSErr FSState :=
  match lookupFS s p with
  | some (.file _ _) => .ok s
  | some (.dir _) => .error (.pathIsDir p)
  | none => .ok s

/-- String suffix test (Go `strings.HasSuffix`). -/
def hasSuffixStr (s suf : String) : Bool :=
  List.isSuffixOf suf.data s.data

/-- Join path segments with "/" (template-relative paths are slash-separated). -/
def joinSlash (p : FPath) : String := String.intercalate "/" p

/-- `TemplateManager.GetDefaultFileMode` (template.go): 0755 for `.sh`/`.bash`
suffixes, 0644 otherwise. -/
def getDefaultFileMode (relPath : FPath) : Nat :=
  if hasSuffixStr (joinSlash relPath) ".sh" || hasSuffixStr (joinSlash relPath) ".bash"
  then 0o755 else 0o644

/-- `TemplateManager.GetDefaultDirMode` (template.go): always 0755. -/
def getDefaultDirMode : Nat := 0o755

/-- An entry produced by `TemplateManager.Walk`: the walk-relative path of a
directory or a file (the root itself is skipped by the walk). -/
inductive TEntry where
  | dir (relPath : FPath)
  | file (relPath : FPath)
deriving DecidableEq, Repr

/-- The walk-relative path of an entry. -/
def TEntry.rel : TEntry → FPath
  | .dir p => p
  | .file p => p

/-- Whether the entry is a file. -/
def TEntry.isFile : TEntry → Bool
  | .dir _ => false
  | .file _ => true

/-- The asset source as the engine consumes it: the entry sequence yielded by
`TemplateManager.Walk` (in walk order), and the `TemplateManager.ReadFile`
operation for template bodies. -/
structure AssetSource where
  entries : List TEntry
  readF : FPath → Except FSErr String

/-- `Statistics` (engine.go). -/
structure Statistics where
  filesCreated : Nat
  filesSkipped : Nat
  dirsCreated : Nat
  dirsSkipped : Nat
  errors : List FSErr
deriving DecidableEq, Repr

/-- The zero statistics a run starts from. -/
def initStats : Statistics := ⟨0, 0, 0, 0, []⟩

/-- The destination path of an entry:
`filepath.Join(TargetDir, ".claude", filepath.FromSlash(path))` (engine.go). -/
def destOf (tgt : FPath) (rel : FPath) : FPath :=
  cleanSegs (tgt ++ [".claude"] ++ rel)

/-- `Engine.processDirectory` (engine.go). The third component is the error
the walk callback returns (a `some` aborts `fs.WalkDir`). -/
def processDirectory (dry : Bool) (s : FSState) (stats : Statistics)
    (targetPath : FPath) : FSState × Statistics × Option FSErr :=
  match lookupFS s targetPath with
  | some n =>
    if n.isDir then
      (s, { stats with dirsSkipped := stats.dirsSkipped + 1 }, none)
    else
      let e := FSErr.pathNotDir targetPath
      (s, { stats with errors := stats.errors ++ [e] }, some e)
  | none =>
    match (if dry then dryCreateDir s targetPath getDefaultDirMode
           else osCreateDir s targetPath getDefaultDirMode) with
    | .error e => (s, { stats with errors := stats.errors ++ [e] }, some e)
    | .ok s' => (s', { stats with dirsCreated := stats.dirsCreated + 1 }, none)

/-- `Engine.processFile` (engine.go). Reads the template body only when the
destination is absent; the third component is the walk-callback error. -/
def processFile (dry : Bool) (src : AssetSource) (s : FSState)
    (stats : Statistics) (sourcePath targetPath : FPath) :
    FSState × Statistics × Option FSErr :=
  match lookupFS s targetPath with
  | some n =>
    if n.isDir then
      let e := FSErr.pathIsDir targetPath
      (s, { stats with errors := stats.errors ++ [e] }, some e)
    else
      (s, { stats with filesSkipped := stats.filesSkipped + 1 }, none)
  | none =>
    match src.readF sourcePath with
    | .error e => (s, { stats with errors := stats.errors ++ [e] }, some e)
    | .ok content =>
      match (if dry then dryCreateFile s targetPath content (getDefaultFileMode sourcePath)
             else osCreateFile s targetPath content (getDefaultFileMode sourcePath)) with
      | .error e => (s, { stats with errors := stats.errors ++ [e] }, some e)
      | .ok s' => (s', { stats with filesCreated := stats.filesCreated + 1 }, none)

/-- One walk step of the engine callback for a single entry. -/
def processEntry (dry : Bool) (src : AssetSource) (tgt : FPath) (s : FSState)
    (stats : Statistics) (e : TEntry) : FSState × Statistics × Option FSErr :=
  match e with
  | .dir rel => processDirectory dry s stats (destOf tgt rel)
  | .file rel => processFile dry src s stats rel (destOf tgt rel)

/-- The walk over the entries (`TemplateManager.Walk` driving the engine
callback). As in `fs.WalkDir`, a non-nil callback result stops the walk. -/
def runEntries (dry : Bool) (src : AssetSource) (tgt : FPath) :
    List TEntry → FSState → Statistics → FSState × Statistics × Option FSErr
  | [], s, stats => (s, stats, none)
  | e :: rest, s, stats =>
    match processEntry dry src tgt s stats e with
    | (s', stats', some err) => (s', stats', some err)
    | (s', stats', none) => runEntries dry src tgt rest s' stats'

/-- `TemplateManager.HasTemplates` (template.go): the root directory listing
is nonempty; a missing or empty tree gives `false`, not an error. -/
def hasTemplates (src : AssetSource) : Bool := !src.entries.isEmpty

/-- The overall outcome of `Engine.Run`. -/
inductive RunResult where
  | noTemplates
  | walkAborted (e : FSErr)
  | completedWithErrors (n : Nat)
  | success
deriving DecidableEq, Repr

/-- A run that finished the whole walk (with or without accumulated errors). -/
def RunResult.completed : RunResult → Bool
  | .success => true
  | .completedWithErrors _ => true
  | _ => false

/-- `Engine.Run` (engine.go): check `HasTemplates`, walk every entry, then
report: an aborted walk is "failed to process templates", a nonempty error
list is "completed with N errors", otherwise success. -/
def engineRun (dry : Bool) (src : AssetSource) (tgt : FPath) (s : FSState) :
    FSState × Statistics × RunResult :=
  if hasTemplates src then
    match runEntries dry src tgt src.entries s initStats with
    | (s', stats, some e) => (s', stats, .walkAborted e)
    | (s', stats, none) =>
      if stats.errors.isEmpty then (s', stats, .success)
      else (s', stats, .completedWithErrors stats.errors.length)
  else (s, initStats, .noTemplates)

/-- Lookup in the embedded read-only asset tree (the file list of the
`embed.FS`). -/
def embedLookup : List (FPath × String) → FPath → Option String
  | [], _ => none
  | (q, c) :: rest, p => if p = q then some c else embedLookup rest p

/-- `TemplateManager.ReadFile` (template.go): `path.Join(tm.prefix, relPath)`
(which lexically cleans the joined path) followed by `embed.FS.ReadFile`; an
unknown path is "failed to read embedded file". No validation of `relPath`
happens before the read. -/
def tmReadFile (files : List (FPath × String)) (pfx : FPath) (relPath : FPath) :
    Except FSErr String :=
  let fullPath := cleanSegs (pfx ++ relPath)
  match embedLookup files fullPath with
  | some data => .ok data
  | none => .error (.readFailed fullPath)

/-- The probe filename used by `validateConfig` (cli.go). -/
def testFileName : String := ".cc-init-test"

/-- `os.Create`: truncate an existing file in place, fail on a directory,
otherwise create an empty file (0666 before umask) under an existing parent. -/
def osCreate (s : FSState) (p : FPath) : Except FSErr FSState :=
  match lookupFS s p with
  | some (.dir _) => .error (.pathIsDir p)
  | some (.file _ m) => .ok ((p, .file "" m) :: s)
  | none =>
    match lookupFS s p.dropLast with
    | some (.dir _) => .ok ((p, .file "" 0o666) :: s)
    | _ => .error (.pathNotDir p.dropLast)

/-- `validateConfig` (cli.go): the target must exist and be a directory; when
not a dry run, a write probe `.cc-init-test` is created inside the target
(truncating any file already there) and then removed. -/
def validateConfig (s : FSState) (targetDir : FPath) (dryRun : Bool) :
    Except FSErr FSState :=
  match lookupFS s targetDir with
  | none => .error (.targetMissing targetDir)
  | some (.file _ _) => .error (.targetNotDir targetDir)
  | some (.dir _) =>
    if dryRun then .ok s
    else
      match osCreate s (targetDir ++ [testFileName]) with
      | .error _ => .error (.noWritePermission targetDir)
      | .ok s' => .ok (removeAllFS s' (targetDir ++ [testFileName]))

/-- Number of file entries in a walk sequence. -/
def countFilesL : List TEntry → Nat
  | [] => 0
  | e :: rest => (if e.isFile then 1 else 0) + countFilesL rest

/-- Number of directory entries in a walk sequence. -/
def countDirsL : List TEntry → Nat
  | [] => 0
  | e :: rest => (if e.isFile then 0 else 1) + countDirsL rest

/-! ## Basic lemmas about the association-list filesystem -/

theorem lookupFS_cons (q : FPath) (n : FSNode) (s : FSState) (p : FPath) :
    lookupFS ((q, n) :: s) p = if p = q then some n else lookupFS s p := rfl

/-- Boolean prefix test on paths. -/
def isPfxOf : FPath → FPath → Bool
  | [], _ => true
  | _ :: _, [] => false
  | a :: as, b :: bs => a == b && isPfxOf as bs

/-- Strict-ancestor test: a proper prefix. -/
def strictAnc (q p : FPath) : Bool := isPfxOf q p && decide (q ≠ p)

theorem isPfxOf_take (p : FPath) (n : Nat) : isPfxOf (p.take n) p = true := by
  induction p generalizing n with
  | nil => cases n <;> rfl
  | cons a as ih =>
    cases n with
    | zero => rfl
    | succ m => simp [List.take, isPfxOf, ih]

theorem isPfxOf_refl (p : FPath) : isPfxOf p p = true := by
  have h := isPfxOf_take p p.length
  rwa [List.take_length] at h

theorem isPfxOf_length {q p : FPath} (h : isPfxOf q p = true) : q.length ≤ p.length := by
  induction q generalizing p with
  | nil => simp
  | cons a as ih =>
    cases p with
    | nil => simp [isPfxOf] at h
    | cons b bs =>
      simp only [isPfxOf, Bool.and_eq_true, beq_iff_eq] at h
      simpa [List.length_cons] using Nat.succ_le_succ (ih h.2)

theorem eq_take_of_isPfxOf {q p : FPath} (h : isPfxOf q p = true) :
    q = p.take q.length := by
  induction q generalizing p with
  | nil => simp
  | cons a as ih =>
    cases p with
    | nil => simp [isPfxOf] at h
    | cons b bs =>
      simp only [isPfxOf, Bool.and_eq_true, beq_iff_eq] at h
      rw [List.length_cons, List.take_succ_cons, ← ih h.2, h.1]

theorem isPfxOf_trans {q p r : FPath} (h1 : isPfxOf q p = true)
    (h2 : isPfxOf p r = true) : isPfxOf q r = true := by
  induction q generalizing p r with
  | nil => rfl
  | cons a as ih =>
    cases p with
    | nil => simp [isPfxOf] at h1
    | cons b bs =>
      cases r with
      | nil => simp [isPfxOf] at h2
      | cons c cs =>
        simp only [isPfxOf, Bool.and_eq_true, beq_iff_eq] at h1 h2 ⊢
        exact ⟨h1.1.trans h2.1, ih h1.2 h2.2⟩

theorem isPfxOf_dropLast (p : FPath) : isPfxOf p.dropLast p = true := by
  rw [List.dropLast_eq_take]
  exact isPfxOf_take p _

theorem mem_prefixesUp {q p : FPath} (h : q ∈ prefixesUp p) :
    isPfxOf q p = true ∧ q ≠ [] := by
  simp only [prefixesUp, List.mem_map, List.mem_range] at h
  obtain ⟨i, hi, rfl⟩ := h
  refine ⟨isPfxOf_take p _, ?_⟩
  have : (p.take (i + 1)).length = i + 1 := by
    rw [List.length_take]
    omega
  intro hnil
  rw [hnil] at this
  simp at this

theorem self_mem_prefixesUp {p : FPath} (h : p ≠ []) : p ∈ prefixesUp p := by
  have hl : 0 < p.length := List.length_pos.mpr h
  simp only [prefixesUp, List.mem_map, List.mem_range]
  exact ⟨p.length - 1, by omega, by rw [Nat.sub_add_cancel hl, List.take_length]⟩

theorem mem_prefixesUp_of {q p : FPath} (hq : isPfxOf q p = true) (hne : q ≠ []) :
    q ∈ prefixesUp p := by
  have hlen := isPfxOf_length hq
  have hl : 0 < q.length := List.length_pos.mpr hne
  simp only [prefixesUp, List.mem_map, List.mem_range]
  exact ⟨q.length - 1, by omega, by rw [Nat.sub_add_cancel hl]; exact (eq_take_of_isPfxOf hq).symm⟩

/-! ## Lemmas about `mkdirSteps` / `mkdirAll` -/

theorem mkdirSteps_preserve (perm : Nat) :
    ∀ (qs : List FPath) (s s' : FSState), mkdirSteps perm s qs = .ok s' →
      ∀ p n, lookupFS s p = some n → lookupFS s' p = some n := by
  intro qs
  induction qs with
  | nil =>
    intro s s' h p n hp
    simp only [mkdirSteps] at h
    cases h
    exact hp
  | cons q qs ih =>
    intro s s' h p n hp
    simp only [mkdirSteps] at h
    cases hq : lookupFS s q with
    | none =>
      rw [hq] at h
      refine ih _ _ h p n ?_
      rw [lookupFS_cons]
      have hne : p ≠ q := fun he => by rw [he, hq] at hp; cases hp
      rw [if_neg hne]
      exact hp
    | some node =>
      rw [hq] at h
      cases node with
      | dir m => exact ih _ _ h p n hp
      | file c m => cases h

theorem mkdirSteps_isFileB (perm : Nat) :
    ∀ (qs : List FPath) (s s' : FSState), mkdirSteps perm s qs = .ok s' →
      ∀ p, isFileB s' p = isFileB s p := by
  intro qs
  induction qs with
  | nil =>
    intro s s' h p
    simp only [mkdirSteps] at h
    cases h
    rfl
  | cons q qs ih =>
    intro s s' h p
    simp only [mkdirSteps] at h
    cases hq : lookupFS s q with
    | none =>
      rw [hq] at h
      rw [ih _ _ h p]
      unfold isFileB
      rw [lookupFS_cons]
      by_cases hpq : p = q
      · rw [if_pos hpq, hpq, hq]
      · rw [if_neg hpq]
    | some node =>
      rw [hq] at h
      cases node with
      | dir m => exact ih _ _ h p
      | file c m => cases h

theorem mkdirSteps_lookup_unchanged (perm : Nat) :
    ∀ (qs : List FPath) (s s' : FSState), mkdirSteps perm s qs = .ok s' →
      ∀ p, p ∉ qs → lookupFS s' p = lookupFS s p := by
  intro qs
  induction qs with
  | nil =>
    intro s s' h p _
    simp only [mkdirSteps] at h
    cases h
    rfl
  | cons q qs ih =>
    intro s s' h p hp
    simp only [mkdirSteps] at h
    have hpq : p ≠ q := fun he => hp (he ▸ List.mem_cons_self q qs)
    have hpqs : p ∉ qs := fun hm => hp (List.mem_cons_of_mem q hm)
    cases hq : lookupFS s q with
    | none =>
      rw [hq] at h
      rw [ih _ _ h p hpqs, lookupFS_cons, if_neg hpq]
    | some node =>
      rw [hq] at h
      cases node with
      | dir m => exact ih _ _ h p hpqs
      | file c m => cases h

theorem mkdirSteps_ok (perm : Nat) :
    ∀ (qs : List FPath) (s : FSState), (∀ q ∈ qs, isFileB s q = false) →
      ∃ s', mkdirSteps perm s qs = .ok s' := by
  intro qs
  induction qs with
  | nil => intro s _; exact ⟨s, rfl⟩
  | cons q qs ih =>
    intro s hs
    have hq0 : isFileB s q = false := hs q (List.mem_cons_self q qs)
    simp only [mkdirSteps]
    cases hq : lookupFS s q with
    | none =>
      refine ih ((q, .dir perm) :: s) ?_
      intro r hr
      unfold isFileB
      rw [lookupFS_cons]
      by_cases hrq : r = q
      · rw [if_pos hrq]
      · rw [if_neg hrq]
        exact hs r (List.mem_cons_of_mem q hr)
    | some node =>
      cases node with
      | dir m => exact ih s (fun r hr => hs r (List.mem_cons_of_mem q hr))
      | file c m =>
        exfalso
        unfold isFileB at hq0
        rw [hq] at hq0
        cases hq0

theorem mkdirSteps_dirs (perm : Nat) :
    ∀ (qs : List FPath) (s s' : FSState), mkdirSteps perm s qs = .ok s' →
      ∀ q ∈ qs, isDirB s' q = true := by
  intro qs
  induction qs with
  | nil => intro s s' _ q hq; cases hq
  | cons q qs ih =>
    intro s s' h r hr
    simp only [mkdirSteps] at h
    cases hq : lookupFS s q with
    | none =>
      rw [hq] at h
      rcases List.mem_cons.mp hr with rfl | hr'
      · have : lookupFS ((r, FSNode.dir perm) :: s) r = some (.dir perm) := by
          rw [lookupFS_cons, if_pos rfl]
        have h2 := mkdirSteps_preserve perm _ _ _ h r (.dir perm) this
        unfold isDirB
        rw [h2]
      · exact ih _ _ h r hr'
    | some node =>
      rw [hq] at h
      cases node with
      | dir m =>
        rcases List.mem_cons.mp hr with rfl | hr'
        · have h2 := mkdirSteps_preserve perm _ _ _ h r (.dir m) hq
          unfold isDirB
          rw [h2]
        · exact ih _ _ h r hr'
      | file c m => cases h

/-! ## Lemmas about the real create operations -/

theorem osCreateDir_preserve {s s' : FSState} {p : FPath} {perm : Nat}
    (h : osCreateDir s p perm = .ok s') :
    ∀ q n, lookupFS s q = some n → lookupFS s' q = some n := by
  intro q n hq
  unfold osCreateDir at h
  cases hp : lookupFS s p with
  | none =>
    rw [hp] at h
    exact mkdirSteps_preserve perm _ _ _ h q n hq
  | some node =>
    rw [hp] at h
    cases node with
    | dir m => cases h; exact hq
    | file c m => cases h

theorem osCreateFile_preserve {s s' : FSState} {p : FPath} {c : String} {perm : Nat}
    (h : osCreateFile s p c perm = .ok s') :
    ∀ q n, lookupFS s q = some n → lookupFS s' q = some n := by
  intro q n hq
  unfold osCreateFile at h
  cases hp : lookupFS s p with
  | none =>
    rw [hp] at h
    cases hpar : osCreateDir s p.dropLast 0o755 with
    | error e => rw [hpar] at h; cases h
    | ok s2 =>
      rw [hpar] at h
      cases h
      rw [lookupFS_cons]
      have hne : q ≠ p := fun he => by rw [he, hp] at hq; cases hq
      rw [if_neg hne]
      exact osCreateDir_preserve hpar q n hq
  | some node =>
    rw [hp] at h
    cases node with
    | dir m => cases h
    | file c2 m => cases h; exact hq

theorem dryCreateDir_state {s s' : FSState} {p : FPath} {perm : Nat}
    (h : dryCreateDir s p perm = .ok s') : s' = s := by
  unfold dryCreateDir at h
  cases hp : lookupFS s p with
  | none => rw [hp] at h; cases h; rfl
  | some node =>
    rw [hp] at h
    cases node with
    | dir m => cases h; rfl
    | file c m => cases h

theorem dryCreateFile_state {s s' : FSState} {p : FPath} {c : String} {perm : Nat}
    (h : dryCreateFile s p c perm = .ok s') : s' = s := by
  unfold dryCreateFile at h
  cases hp : lookupFS s p with
  | none => rw [hp] at h; cases h; rfl
  | some node =>
    rw [hp] at h
    cases node with
    | dir m => cases h
    | file c2 m => cases h; rfl

/-! ## Step lemmas for the engine callback -/

theorem processDirectory_preserve (dry : Bool) (s : FSState) (stats : Statistics)
    (d : FPath) {s' : FSState} {stats' : Statistics} {r : Option FSErr}
    (h : processDirectory dry s stats d = (s', stats', r)) :
    ∀ q n, lookupFS s q = some n → lookupFS s' q = some n := by
  intro q n hq
  unfold processDirectory at h
  cases hd : lookupFS s d with
  | some node =>
    rw [hd] at h
    cases node with
    | dir m =>
      simp only [FSNode.isDir, if_true, Prod.mk.injEq] at h
      rw [← h.1]
      exact hq
    | file c m =>
      simp only [FSNode.isDir, Bool.false_eq_true, if_false, Prod.mk.injEq] at h
      rw [← h.1]
      exact hq
  | none =>
    rw [hd] at h
    cases dry with
    | true =>
      simp only [if_true] at h
      cases hc : dryCreateDir s d getDefaultDirMode with
      | error e =>
        rw [hc] at h
        simp only [Prod.mk.injEq] at h
        rw [← h.1]; exact hq
      | ok s2 =>
        rw [hc] at h
        simp only [Prod.mk.injEq] at h
        rw [← h.1, dryCreateDir_state hc]
        exact hq
    | false =>
      simp only [Bool.false_eq_true, if_false] at h
      cases hc : osCreateDir s d getDefaultDirMode with
      | error e =>
        rw [hc] at h
        simp only [Prod.mk.injEq] at h
        rw [← h.1]; exact hq
      | ok s2 =>
        rw [hc] at h
        simp only [Prod.mk.injEq] at h
        rw [← h.1]
        exact osCreateDir_preserve hc q n hq

theorem processFile_preserve (dry : Bool) (src : AssetSource) (s : FSState)
    (stats : Statistics) (rel d : FPath)
    {s' : FSState} {stats' : Statistics} {r : Option FSErr}
    (h : processFile dry src s stats rel d = (s', stats', r)) :
    ∀ q n, lookupFS s q = some n → lookupFS s' q = some n := by
  intro q n hq
  unfold processFile at h
  cases hd : lookupFS s d with
  | some node =>
    rw [hd] at h
    cases node with
    | dir m =>
      simp only [FSNode.isDir, if_true, Prod.mk.injEq] at h
      rw [← h.1]; exact hq
    | file c m =>
      simp only [FSNode.isDir, Bool.false_eq_true, if_false, Prod.mk.injEq] at h
      rw [← h.1]; exact hq
  | none =>
    rw [hd] at h
    cases hrd : src.readF rel with
    | error e =>
      rw [hrd] at h
      simp only [Prod.mk.injEq] at h
      rw [← h.1]; exact hq
    | ok content =>
      rw [hrd] at h
      cases dry with
      | true =>
        simp only [if_true] at h
        cases hc : dryCreateFile s d content (getDefaultFileMode rel) with
        | error e =>
          rw [hc] at h
          simp only [Prod.mk.injEq] at h
          rw [← h.1]; exact hq
        | ok s2 =>
          rw [hc] at h
          simp only [Prod.mk.injEq] at h
          rw [← h.1, dryCreateFile_state hc]
          exact hq
      | false =>
        simp only [Bool.false_eq_true, if_false] at h
        cases hc : osCreateFile s d content (getDefaultFileMode rel) with
        | error e =>
          rw [hc] at h
          simp only [Prod.mk.injEq] at h
          rw [← h.1]; exact hq
        | ok s2 =>
          rw [hc] at h
          simp only [Prod.mk.injEq] at h
          rw [← h.1]
          exact osCreateFile_preserve hc q n hq

theorem processEntry_preserve (dry : Bool) (src : AssetSource) (tgt : FPath)
    (s : FSState) (stats : Statistics) (e : TEntry)
    {s' : FSState} {stats' : Statistics} {r : Option FSErr}
    (h : processEntry dry src tgt s stats e = (s', stats', r)) :
    ∀ q n, lookupFS s q = some n → lookupFS s' q = some n := by
  cases e with
  | dir rel => exact processDirectory_preserve dry s stats (destOf tgt rel) h
  | file rel => exact processFile_preserve dry src s stats rel (destOf tgt rel) h

theorem runEntries_preserve (dry : Bool) (src : AssetSource) (tgt : FPath) :
    ∀ (es : List TEntry) (s : FSState) (stats : Statistics) (q : FPath) (n : FSNode),
      lookupFS s q = some n →
      lookupFS (runEntries dry src tgt es s stats).1 q = some n := by
  intro es
  induction es with
  | nil => intro s stats q n hq; exact hq
  | cons e rest ih =>
    intro s stats q n hq
    unfold runEntries
    cases hstep : processEntry dry src tgt s stats e with
    | mk s' rest2 =>
      cases rest2 with
      | mk stats' r =>
        have hpres := processEntry_preserve dry src tgt s stats e hstep q n hq
        cases r with
        | some err => simpa using hpres
        | none => simpa using ih s' stats' q n hpres

/-- Preservation for the whole run: any binding present at run start is
present, unchanged, when `Engine.Run` returns, whatever the run mode. -/
theorem engineRun_preserve (dry : Bool) (src : AssetSource) (tgt : FPath)
    (s : FSState) :
    ∀ q n, lookupFS s q = some n →
      lookupFS (engineRun dry src tgt s).1 q = some n := by
  intro q n hq
  unfold engineRun
  cases hT : hasTemplates src with
  | false => simpa using hq
  | true =>
    simp only [if_true]
    cases hrun : runEntries dry src tgt src.entries s initStats with
    | mk s' rest2 =>
      cases rest2 with
      | mk stats r =>
        have hmain := runEntries_preserve dry src tgt src.entries s initStats q n hq
        rw [hrun] at hmain
        cases r with
        | some e => simpa using hmain
        | none =>
          cases herr : stats.errors.isEmpty <;> simp [herr] <;> exact hmain

/-! ## Characterizations of successful steps -/

theorem isDirB_iff {s : FSState} {p : FPath} :
    isDirB s p = true ↔ ∃ m, lookupFS s p = some (.dir m) := by
  unfold isDirB
  cases h : lookupFS s p with
  | none => simp
  | some node =>
    cases node with
    | dir m => simp
    | file c m => simp

theorem isFileB_iff {s : FSState} {p : FPath} :
    isFileB s p = true ↔ ∃ c m, lookupFS s p = some (.file c m) := by
  unfold isFileB
  cases h : lookupFS s p with
  | none => simp
  | some node =>
    cases node with
    | dir m => simp
    | file c m => simp

theorem osCreateFile_lookup_self {s s' : FSState} {p : FPath} {c : String} {perm : Nat}
    (hp : lookupFS s p = none) (h : osCreateFile s p c perm = .ok s') :
    lookupFS s' p = some (.file c perm) := by
  unfold osCreateFile at h
  rw [hp] at h
  cases hpar : osCreateDir s p.dropLast 0o755 with
  | error e => rw [hpar] at h; cases h
  | ok s2 =>
    rw [hpar] at h
    cases h
    rw [lookupFS_cons, if_pos rfl]

theorem osCreateDir_isDirB_self {s s' : FSState} {p : FPath} {perm : Nat}
    (hp : lookupFS s p = none) (hne : p ≠ []) (h : osCreateDir s p perm = .ok s') :
    isDirB s' p = true := by
  unfold osCreateDir at h
  rw [hp] at h
  exact mkdirSteps_dirs perm _ _ _ h p (self_mem_prefixesUp hne)

/-- A kind statement: the entry's destination exists with the entry's kind. -/
def kindOK (tgt : FPath) (s : FSState) : TEntry → Bool
  | .dir rel => isDirB s (destOf tgt rel)
  | .file rel => isFileB s (destOf tgt rel)

theorem runEntries_cons_none {dry : Bool} {src : AssetSource} {tgt : FPath}
    {e : TEntry} {rest : List TEntry} {s s' : FSState} {stats stats' : Statistics}
    (h : runEntries dry src tgt (e :: rest) s stats = (s', stats', none)) :
    ∃ s1 stats1, processEntry dry src tgt s stats e = (s1, stats1, none) ∧
      runEntries dry src tgt rest s1 stats1 = (s', stats', none) := by
  unfold runEntries at h
  cases hstep : processEntry dry src tgt s stats e with
  | mk s1 r2 =>
    cases r2 with
    | mk stats1 r =>
      rw [hstep] at h
      cases r with
      | some err => simp at h
      | none => exact ⟨s1, stats1, rfl, by simpa using h⟩

theorem processDirectory_none_stats {dry : Bool} {s s' : FSState}
    {stats stats' : Statistics} {d : FPath}
    (h : processDirectory dry s stats d = (s', stats', none)) :
    stats'.filesCreated = stats.filesCreated ∧
    stats'.filesSkipped = stats.filesSkipped ∧
    stats'.dirsCreated + stats'.dirsSkipped = stats.dirsCreated + stats.dirsSkipped + 1 ∧
    stats'.errors = stats.errors := by
  unfold processDirectory at h
  cases hd : lookupFS s d with
  | some node =>
    rw [hd] at h
    cases node with
    | dir m =>
      simp only [FSNode.isDir, if_true, Prod.mk.injEq] at h
      rw [← h.2.1]
      simp
      omega
    | file c m => simp [FSNode.isDir] at h
  | none =>
    rw [hd] at h
    cases hc : (if dry then dryCreateDir s d getDefaultDirMode
                else osCreateDir s d getDefaultDirMode) with
    | error e => rw [hc] at h; simp at h
    | ok s2 =>
      rw [hc] at h
      simp only [Prod.mk.injEq] at h
      rw [← h.2.1]
      simp
      omega

theorem processFile_none_stats {dry : Bool} {src : AssetSource} {s s' : FSState}
    {stats stats' : Statistics} {rel d : FPath}
    (h : processFile dry src s stats rel d = (s', stats', none)) :
    stats'.filesCreated + stats'.filesSkipped = stats.filesCreated + stats.filesSkipped + 1 ∧
    stats'.dirsCreated = stats.dirsCreated ∧
    stats'.dirsSkipped = stats.dirsSkipped ∧
    stats'.errors = stats.errors := by
  unfold processFile at h
  cases hd : lookupFS s d with
  | some node =>
    rw [hd] at h
    cases node with
    | dir m => simp [FSNode.isDir] at h
    | file c m =>
      simp only [FSNode.isDir, Bool.false_eq_true, if_false, Prod.mk.injEq] at h
      rw [← h.2.1]
      simp
      omega
  | none =>
    rw [hd] at h
    cases hrd : src.readF rel with
    | error e => rw [hrd] at h; simp at h
    | ok content =>
      rw [hrd] at h
      cases dry with
      | true =>
        simp only [if_true] at h
        cases hc : dryCreateFile s d content (getDefaultFileMode rel) with
        | error e => rw [hc] at h; simp at h
        | ok s2 =>
          rw [hc] at h
          simp only [Prod.mk.injEq] at h
          rw [← h.2.1]
          simp
          omega
      | false =>
        simp only [Bool.false_eq_true, if_false] at h
        cases hc : osCreateFile s d content (getDefaultFileMode rel) with
        | error e => rw [hc] at h; simp at h
        | ok s2 =>
          rw [hc] at h
          simp only [Prod.mk.injEq] at h
          rw [← h.2.1]
          simp
          omega

theorem processDirectory_none_dir {s s' : FSState} {stats stats' : Statistics}
    {d : FPath} (hne : d ≠ [])
    (h : processDirectory false s stats d = (s', stats', none)) :
    isDirB s' d = true := by
  unfold processDirectory at h
  cases hd : lookupFS s d with
  | some node =>
    rw [hd] at h
    cases node with
    | dir m =>
      simp only [FSNode.isDir, if_true, Prod.mk.injEq] at h
      rw [← h.1]
      exact isDirB_iff.mpr ⟨m, hd⟩
    | file c m => simp [FSNode.isDir] at h
  | none =>
    rw [hd] at h
    simp only [Bool.false_eq_true, if_false] at h
    cases hc : osCreateDir s d getDefaultDirMode with
    | error e => rw [hc] at h; simp at h
    | ok s2 =>
      rw [hc] at h
      simp only [Prod.mk.injEq] at h
      rw [← h.1]
      exact osCreateDir_isDirB_self hd hne hc

theorem processFile_none_file {src : AssetSource} {s s' : FSState}
    {stats stats' : Statistics} {rel d : FPath}
    (h : processFile false src s stats rel d = (s', stats', none)) :
    isFileB s' d = true := by
  unfold processFile at h
  cases hd : lookupFS s d with
  | some node =>
    rw [hd] at h
    cases node with
    | dir m => simp [FSNode.isDir] at h
    | file c m =>
      simp only [FSNode.isDir, Bool.false_eq_true, if_false, Prod.mk.injEq] at h
      rw [← h.1]
      exact isFileB_iff.mpr ⟨c, m, hd⟩
  | none =>
    rw [hd] at h
    cases hrd : src.readF rel with
    | error e => rw [hrd] at h; simp at h
    | ok content =>
      rw [hrd] at h
      simp only [Bool.false_eq_true, if_false] at h
      cases hc : osCreateFile s d content (getDefaultFileMode rel) with
      | error e => rw [hc] at h; simp at h
      | ok s2 =>
        rw [hc] at h
        simp only [Prod.mk.injEq] at h
        rw [← h.1]
        exact isFileB_iff.mpr ⟨content, getDefaultFileMode rel, osCreateFile_lookup_self hd hc⟩

/-- A completed walk adds, per kind, exactly one created-or-skipped unit per
entry and never touches the error list. -/
theorem runEntries_counts (dry : Bool) (src : AssetSource) (tgt : FPath) :
    ∀ (es : List TEntry) (s s' : FSState) (stats stats' : Statistics),
      runEntries dry src tgt es s stats = (s', stats', none) →
      stats'.filesCreated + stats'.filesSkipped
          = stats.filesCreated + stats.filesSkipped + countFilesL es ∧
      stats'.dirsCreated + stats'.dirsSkipped
          = stats.dirsCreated + stats.dirsSkipped + countDirsL es ∧
      stats'.errors = stats.errors := by
  intro es
  induction es with
  | nil =>
    intro s s' stats stats' h
    unfold runEntries at h
    simp only [Prod.mk.injEq] at h
    rw [← h.2.1]
    simp [countFilesL, countDirsL]
  | cons e rest ih =>
    intro s s' stats stats' h
    obtain ⟨s1, stats1, hstep, hrest⟩ := runEntries_cons_none h
    have hih := ih s1 s' stats1 stats' hrest
    cases e with
    | dir rel =>
      have hst := processDirectory_none_stats hstep
      refine ⟨?_, ?_, ?_⟩
      · rw [hih.1, hst.1, hst.2.1]
        simp [countFilesL, TEntry.isFile]
      · rw [hih.2.1, hst.2.2.1]
        simp [countDirsL, TEntry.isFile]
        omega
      · rw [hih.2.2, hst.2.2.2]
    | file rel =>
      have hst := processFile_none_stats hstep
      refine ⟨?_, ?_, ?_⟩
      · rw [hih.1, hst.1]
        simp [countFilesL, TEntry.isFile]
        omega
      · rw [hih.2.1, hst.2.1, hst.2.2.1]
        simp [countDirsL, TEntry.isFile]
      · rw [hih.2.2, hst.2.2.2]

/-- After a real (non-dry) walk completes without abort, every entry's
destination exists with the entry's kind. -/
theorem runEntries_kinds (src : AssetSource) (tgt : FPath) :
    ∀ (es : List TEntry) (s s' : FSState) (stats stats' : Statistics),
      runEntries false src tgt es s stats = (s', stats', none) →
      (∀ e ∈ es, destOf tgt e.rel ≠ []) →
      ∀ e ∈ es, kindOK tgt s' e = true := by
  intro es
  induction es with
  | nil => intro s s' stats stats' _ _ e he; cases he
  | cons e0 rest ih =>
    intro s s' stats stats' h hne e he
    obtain ⟨s1, stats1, hstep, hrest⟩ := runEntries_cons_none h
    rcases List.mem_cons.mp he with rfl | he'
    · have hne0 := hne e (List.mem_cons_self e rest)
      cases e with
      | dir rel =>
        have hd := processDirectory_none_dir hne0 hstep
        obtain ⟨m, hm⟩ := isDirB_iff.mp hd
        have hpres := runEntries_preserve false src tgt rest s1 stats1 _ _ hm
        rw [hrest] at hpres
        exact isDirB_iff.mpr ⟨m, hpres⟩
      | file rel =>
        have hf := processFile_none_file hstep
        obtain ⟨c, m, hm⟩ := isFileB_iff.mp hf
        have hpres := runEntries_preserve false src tgt rest s1 stats1 _ _ hm
        rw [hrest] at hpres
        exact isFileB_iff.mpr ⟨c, m, hpres⟩
    · exact ih s1 s' stats1 stats' hrest (fun x hx => hne x (List.mem_cons_of_mem e0 hx)) e he'

/-- Skip equation for a directory whose destination is already a directory. -/
theorem processDirectory_skip (dry : Bool) (s : FSState) (stats : Statistics)
    (d : FPath) (m : Nat) (hm : lookupFS s d = some (.dir m)) :
    processDirectory dry s stats d =
      (s, { stats with dirsSkipped := stats.dirsSkipped + 1 }, none) := by
  unfold processDirectory
  rw [hm]
  simp [FSNode.isDir]

/-- Skip equation for a file whose destination is already a file. -/
theorem processFile_skip (dry : Bool) (src : AssetSource) (s : FSState)
    (stats : Statistics) (rel d : FPath) (c : String) (m : Nat)
    (hm : lookupFS s d = some (.file c m)) :
    processFile dry src s stats rel d =
      (s, { stats with filesSkipped := stats.filesSkipped + 1 }, none) := by
  unfold processFile
  rw [hm]
  simp [FSNode.isDir]

/-- When every entry's destination already exists with the right kind, the
walk only skips: the state is unchanged and each kind's skip counter advances
by the number of entries of that kind. -/
theorem runEntries_skips (dry : Bool) (src : AssetSource) (tgt : FPath) :
    ∀ (es : List TEntry) (s : FSState) (stats : Statistics),
      (∀ e ∈ es, kindOK tgt s e = true) →
      runEntries dry src tgt es s stats =
        (s, { stats with filesSkipped := stats.filesSkipped + countFilesL es,
                         dirsSkipped := stats.dirsSkipped + countDirsL es }, none) := by
  intro es
  induction es with
  | nil =>
    intro s stats _
    unfold runEntries
    simp [countFilesL, countDirsL]
  | cons e rest ih =>
    intro s stats hk
    have hke := hk e (List.mem_cons_self e rest)
    have hkrest : ∀ x ∈ rest, kindOK tgt s x = true :=
      fun x hx => hk x (List.mem_cons_of_mem e hx)
    cases e with
    | dir rel =>
      obtain ⟨m, hm⟩ := isDirB_iff.mp hke
      have hstep : processEntry dry src tgt s stats (.dir rel) =
          (s, { stats with dirsSkipped := stats.dirsSkipped + 1 }, none) :=
        processDirectory_skip dry s stats (destOf tgt rel) m hm
      unfold runEntries
      rw [hstep]
      show runEntries dry src tgt rest s
          { stats with dirsSkipped := stats.dirsSkipped + 1 } = _
      rw [ih s _ hkrest]
      simp [countFilesL, countDirsL, TEntry.isFile, Statistics.mk.injEq]
      try omega
    | file rel =>
      obtain ⟨c, m, hm⟩ := isFileB_iff.mp hke
      have hstep : processEntry dry src tgt s stats (.file rel) =
          (s, { stats with filesSkipped := stats.filesSkipped + 1 }, none) :=
        processFile_skip dry src s stats rel (destOf tgt rel) c m hm
      unfold runEntries
      rw [hstep]
      show runEntries dry src tgt rest s
          { stats with filesSkipped := stats.filesSkipped + 1 } = _
      rw [ih s _ hkrest]
      simp [countFilesL, countDirsL, TEntry.isFile, Statistics.mk.injEq]
      try omega

/-! ## Success conditions and footprints of the create operations -/

theorem isFileB_none {s : FSState} {p : FPath} (h : lookupFS s p = none) :
    isFileB s p = false := by
  unfold isFileB
  rw [h]

theorem strictAnc_iff {q p : FPath} :
    strictAnc q p = true ↔ isPfxOf q p = true ∧ q ≠ p := by
  simp [strictAnc]

theorem ne_of_length_lt {q p : FPath} (h : q.length < p.length) : q ≠ p :=
  fun he => by rw [he] at h; exact Nat.lt_irrefl _ h

theorem not_mem_prefixesUp {q p : FPath} (h : isPfxOf q p = false) :
    q ∉ prefixesUp p := by
  intro hm
  rw [(mem_prefixesUp hm).1] at h
  cases h

theorem osCreateDir_ok {s : FSState} {p : FPath} (perm : Nat)
    (hnf : isFileB s p = false)
    (hanc : ∀ q, strictAnc q p = true → isFileB s q = false) :
    ∃ s', osCreateDir s p perm = .ok s' := by
  unfold osCreateDir
  cases hp : lookupFS s p with
  | some node =>
    cases node with
    | dir m => exact ⟨s, rfl⟩
    | file c m =>
      exfalso
      unfold isFileB at hnf
      rw [hp] at hnf
      cases hnf
  | none =>
    refine mkdirSteps_ok perm (prefixesUp p) s ?_
    intro q hq
    obtain ⟨hpfx, hqne⟩ := mem_prefixesUp hq
    by_cases hqp : q = p
    · rw [hqp]
      unfold isFileB
      rw [hp]
    · exact hanc q (strictAnc_iff.mpr ⟨hpfx, hqp⟩)

theorem osCreateDir_lookup_unchanged {s s' : FSState} {p : FPath} {perm : Nat}
    (h : osCreateDir s p perm = .ok s') :
    ∀ q, isPfxOf q p = false → lookupFS s' q = lookupFS s q := by
  intro q hq
  unfold osCreateDir at h
  cases hp : lookupFS s p with
  | some node =>
    rw [hp] at h
    cases node with
    | dir m => cases h; rfl
    | file c m => cases h
  | none =>
    rw [hp] at h
    exact mkdirSteps_lookup_unchanged perm _ _ _ h q (not_mem_prefixesUp hq)

theorem osCreateDir_isFileB {s s' : FSState} {p : FPath} {perm : Nat}
    (h : osCreateDir s p perm = .ok s') :
    ∀ q, isFileB s' q = isFileB s q := by
  intro q
  unfold osCreateDir at h
  cases hp : lookupFS s p with
  | some node =>
    rw [hp] at h
    cases node with
    | dir m => cases h; rfl
    | file c m => cases h
  | none =>
    rw [hp] at h
    exact mkdirSteps_isFileB perm _ _ _ h q

theorem isPfxOf_dropLast_trans {q p : FPath} (h : isPfxOf q p.dropLast = true) :
    isPfxOf q p = true :=
  isPfxOf_trans h (isPfxOf_dropLast p)

theorem osCreateFile_ok {s : FSState} {p : FPath} (c : String) (perm : Nat)
    (hp : lookupFS s p = none)
    (hanc : ∀ q, strictAnc q p = true → isFileB s q = false) :
    ∃ s', osCreateFile s p c perm = .ok s' := by
  unfold osCreateFile
  rw [hp]
  have hpar : ∃ s2, osCreateDir s p.dropLast 0o755 = .ok s2 := by
    refine osCreateDir_ok 0o755 ?_ ?_
    · by_cases hpe : p = []
      · rw [hpe]
        exact isFileB_none (by rw [hpe] at hp; exact hp)
      · refine hanc p.dropLast (strictAnc_iff.mpr ⟨isPfxOf_dropLast p, ?_⟩)
        refine ne_of_length_lt ?_
        rw [List.length_dropLast]
        have : 0 < p.length := List.length_pos.mpr hpe
        omega
    · intro q hq
      obtain ⟨hpfx, hqne⟩ := strictAnc_iff.mp hq
      refine hanc q (strictAnc_iff.mpr ⟨isPfxOf_dropLast_trans hpfx, ?_⟩)
      refine ne_of_length_lt ?_
      have h1 := isPfxOf_length hpfx
      have h2 : p.dropLast.length ≤ p.length := by
        rw [List.length_dropLast]; omega
      by_cases hpe : p = []
      · exfalso
        rw [hpe] at hpfx hqne
        have hq0 : q = [] := by
          cases q with
          | nil => rfl
          | cons a as => simp [List.dropLast, isPfxOf] at hpfx
        rw [hq0] at hqne
        exact hqne rfl
      · have : 0 < p.length := List.length_pos.mpr hpe
        rw [List.length_dropLast] at h1
        omega
  obtain ⟨s2, h2⟩ := hpar
  rw [h2]
  exact ⟨_, rfl⟩

theorem osCreateFile_lookup_unchanged {s s' : FSState} {p : FPath} {c : String}
    {perm : Nat} (h : osCreateFile s p c perm = .ok s') :
    ∀ q, isPfxOf q p = false → lookupFS s' q = lookupFS s q := by
  intro q hq
  unfold osCreateFile at h
  cases hp : lookupFS s p with
  | some node =>
    rw [hp] at h
    cases node with
    | dir m => cases h
    | file c2 m => cases h; rfl
  | none =>
    rw [hp] at h
    cases hpar : osCreateDir s p.dropLast 0o755 with
    | error e => rw [hpar] at h; cases h
    | ok s2 =>
      rw [hpar] at h
      cases h
      have hqp : q ≠ p := fun he => by rw [he, isPfxOf_refl] at hq; cases hq
      rw [lookupFS_cons, if_neg hqp]
      refine osCreateDir_lookup_unchanged hpar q ?_
      cases hqq : isPfxOf q p.dropLast with
      | false => rfl
      | true => rw [isPfxOf_dropLast_trans hqq] at hq; cases hq

theorem osCreateFile_isFileB {s s' : FSState} {p : FPath} {c : String}
    {perm : Nat} (h : osCreateFile s p c perm = .ok s') :
    ∀ q, isFileB s' q = true → isFileB s q = true ∨ q = p := by
  intro q hfq
  unfold osCreateFile at h
  cases hp : lookupFS s p with
  | some node =>
    rw [hp] at h
    cases node with
    | dir m => cases h
    | file c2 m => cases h; exact Or.inl hfq
  | none =>
    rw [hp] at h
    cases hpar : osCreateDir s p.dropLast 0o755 with
    | error e => rw [hpar] at h; cases h
    | ok s2 =>
      rw [hpar] at h
      cases h
      by_cases hqp : q = p
      · exact Or.inr hqp
      · left
        unfold isFileB at hfq
        rw [lookupFS_cons, if_neg hqp] at hfq
        rw [← osCreateDir_isFileB hpar q]
        exact hfq

/-! ## Dry-run state invariance -/

theorem processDirectory_dry_state {s s' : FSState} {stats stats' : Statistics}
    {d : FPath} {r : Option FSErr}
    (h : processDirectory true s stats d = (s', stats', r)) : s' = s := by
  unfold processDirectory at h
  cases hd : lookupFS s d with
  | some node =>
    rw [hd] at h
    cases node with
    | dir m => simp only [FSNode.isDir, if_true, Prod.mk.injEq] at h; exact h.1.symm
    | file c m =>
      simp only [FSNode.isDir, Bool.false_eq_true, if_false, Prod.mk.injEq] at h
      exact h.1.symm
  | none =>
    rw [hd] at h
    simp only [if_true] at h
    cases hc : dryCreateDir s d getDefaultDirMode with
    | error e2 => rw [hc] at h; simp only [Prod.mk.injEq] at h; exact h.1.symm
    | ok s2 =>
      rw [hc] at h
      simp only [Prod.mk.injEq] at h
      rw [← h.1, dryCreateDir_state hc]

theorem processFile_dry_state {src : AssetSource} {s s' : FSState}
    {stats stats' : Statistics} {rel d : FPath} {r : Option FSErr}
    (h : processFile true src s stats rel d = (s', stats', r)) : s' = s := by
  unfold processFile at h
  cases hd : lookupFS s d with
  | some node =>
    rw [hd] at h
    cases node with
    | dir m => simp only [FSNode.isDir, if_true, Prod.mk.injEq] at h; exact h.1.symm
    | file c m =>
      simp only [FSNode.isDir, Bool.false_eq_true, if_false, Prod.mk.injEq] at h
      exact h.1.symm
  | none =>
    rw [hd] at h
    cases hrd : src.readF rel with
    | error e2 => rw [hrd] at h; simp only [Prod.mk.injEq] at h; exact h.1.symm
    | ok content =>
      rw [hrd] at h
      simp only [if_true] at h
      cases hc : dryCreateFile s d content (getDefaultFileMode rel) with
      | error e2 => rw [hc] at h; simp only [Prod.mk.injEq] at h; exact h.1.symm
      | ok s2 =>
        rw [hc] at h
        simp only [Prod.mk.injEq] at h
        rw [← h.1, dryCreateFile_state hc]

theorem processEntry_dry_state {src : AssetSource} {tgt : FPath} {s s' : FSState}
    {stats stats' : Statistics} {e : TEntry} {r : Option FSErr}
    (h : processEntry true src tgt s stats e = (s', stats', r)) : s' = s := by
  cases e with
  | dir rel =>
    have h' : processDirectory true s stats (destOf tgt rel) = (s', stats', r) := h
    exact processDirectory_dry_state h'
  | file rel =>
    have h' : processFile true src s stats rel (destOf tgt rel) = (s', stats', r) := h
    exact processFile_dry_state h'

theorem runEntries_dry_state (src : AssetSource) (tgt : FPath) :
    ∀ (es : List TEntry) (s : FSState) (stats : Statistics),
      (runEntries true src tgt es s stats).1 = s := by
  intro es
  induction es with
  | nil => intro s stats; rfl
  | cons e rest ih =>
    intro s stats
    unfold runEntries
    cases hstep : processEntry true src tgt s stats e with
    | mk s1 r2 =>
      cases r2 with
      | mk stats1 r =>
        have hs1 : s1 = s := processEntry_dry_state hstep
        cases r with
        | some err => exact hs1
        | none =>
          show (runEntries true src tgt rest s1 stats1).1 = s
          rw [hs1]
          exact ih s stats1

/-- A dry `Engine.Run` never changes the filesystem state. -/
theorem engineRun_dry_state (src : AssetSource) (tgt : FPath) (s : FSState) :
    (engineRun true src tgt s).1 = s := by
  unfold engineRun
  cases hT : hasTemplates src with
  | false => simp
  | true =>
    simp only [if_true]
    cases hrun : runEntries true src tgt src.entries s initStats with
    | mk s' rest2 =>
      cases rest2 with
      | mk stats r =>
        have hmain := runEntries_dry_state src tgt src.entries s initStats
        rw [hrun] at hmain
        cases r with
        | some e => simpa using hmain
        | none =>
          cases herr : stats.errors.isEmpty <;> simp [herr] <;> exact hmain

/-! ## Step equations for conflict, create and read-failure branches -/

theorem processDirectory_conflict (dry : Bool) (s : FSState) (stats : Statistics)
    (d : FPath) (c : String) (m : Nat) (hm : lookupFS s d = some (.file c m)) :
    processDirectory dry s stats d =
      (s, { stats with errors := stats.errors ++ [FSErr.pathNotDir d] },
        some (FSErr.pathNotDir d)) := by
  unfold processDirectory
  rw [hm]
  simp [FSNode.isDir]

theorem processFile_conflict (dry : Bool) (src : AssetSource) (s : FSState)
    (stats : Statistics) (rel d : FPath) (m : Nat)
    (hm : lookupFS s d = some (.dir m)) :
    processFile dry src s stats rel d =
      (s, { stats with errors := stats.errors ++ [FSErr.pathIsDir d] },
        some (FSErr.pathIsDir d)) := by
  unfold processFile
  rw [hm]
  simp [FSNode.isDir]

theorem processFile_readErr (dry : Bool) (src : AssetSource) (s : FSState)
    (stats : Statistics) (rel d : FPath) (er : FSErr)
    (hd : lookupFS s d = none) (hrd : src.readF rel = .error er) :
    processFile dry src s stats rel d =
      (s, { stats with errors := stats.errors ++ [er] }, some er) := by
  unfold processFile
  rw [hd, hrd]

theorem processDirectory_create (s : FSState) (stats : Statistics) (d : FPath)
    (s2 : FSState) (hd : lookupFS s d = none)
    (hc : osCreateDir s d getDefaultDirMode = .ok s2) :
    processDirectory false s stats d =
      (s2, { stats with dirsCreated := stats.dirsCreated + 1 }, none) := by
  unfold processDirectory
  rw [hd]
  simp only [Bool.false_eq_true, if_false]
  rw [hc]

theorem processDirectory_dryCreate (s : FSState) (stats : Statistics) (d : FPath)
    (hd : lookupFS s d = none) :
    processDirectory true s stats d =
      (s, { stats with dirsCreated := stats.dirsCreated + 1 }, none) := by
  unfold processDirectory
  rw [hd]
  simp only [if_true]
  unfold dryCreateDir
  rw [hd]

theorem processFile_create (src : AssetSource) (s : FSState) (stats : Statistics)
    (rel d : FPath) (content : String) (s2 : FSState)
    (hd : lookupFS s d = none) (hrd : src.readF rel = .ok content)
    (hc : osCreateFile s d content (getDefaultFileMode rel) = .ok s2) :
    processFile false src s stats rel d =
      (s2, { stats with filesCreated := stats.filesCreated + 1 }, none) := by
  unfold processFile
  rw [hd, hrd]
  simp only [Bool.false_eq_true, if_false]
  rw [hc]

theorem processFile_dryCreate (src : AssetSource) (s : FSState) (stats : Statistics)
    (rel d : FPath) (content : String)
    (hd : lookupFS s d = none) (hrd : src.readF rel = .ok content) :
    processFile true src s stats rel d =
      (s, { stats with filesCreated := stats.filesCreated + 1 }, none) := by
  unfold processFile
  rw [hd, hrd]
  simp only [if_true]
  unfold dryCreateFile
  rw [hd]

/-! ## Well-formedness of a walk sequence and the dry-run simulation -/

/-- Unfolding of a walk step that aborts (callback returned an error). -/
theorem runEntries_cons_abort (dry : Bool) (src : AssetSource) (tgt : FPath)
    (e : TEntry) (rest : List TEntry) (s s1 : FSState)
    (stats stats1 : Statistics) (err : FSErr)
    (hstep : processEntry dry src tgt s stats e = (s1, stats1, some err)) :
    runEntries dry src tgt (e :: rest) s stats = (s1, stats1, some err) := by
  show (match processEntry dry src tgt s stats e with
        | (s', stats', some err) => (s', stats', some err)
        | (s', stats', none) => runEntries dry src tgt rest s' stats')
      = (s1, stats1, some err)
  rw [hstep]

/-- Unfolding of a walk step that continues. -/
theorem runEntries_cons_step (dry : Bool) (src : AssetSource) (tgt : FPath)
    (e : TEntry) (rest : List TEntry) (s s1 : FSState)
    (stats stats1 : Statistics)
    (hstep : processEntry dry src tgt s stats e = (s1, stats1, none)) :
    runEntries dry src tgt (e :: rest) s stats
      = runEntries dry src tgt rest s1 stats1 := by
  show (match processEntry dry src tgt s stats e with
        | (s', stats', some err) => (s', stats', some err)
        | (s', stats', none) => runEntries dry src tgt rest s' stats')
      = runEntries dry src tgt rest s1 stats1
  rw [hstep]

/-- Relation between an earlier entry `a` and a later entry `b` of a walk:
the later destination is not a prefix of the earlier one (no duplicates, no
parent visited after its child), and an earlier file is never a strict
ancestor of a later destination. `fs.WalkDir` over a directory tree always
yields sequences satisfying this. -/
def entRelB (tgt : FPath) (a b : TEntry) : Bool :=
  !isPfxOf (destOf tgt b.rel) (destOf tgt a.rel) &&
  (!a.isFile || !strictAnc (destOf tgt a.rel) (destOf tgt b.rel))

/-- A well-formed walk sequence: `entRelB` holds for every ordered pair. -/
def wfB (tgt : FPath) : List TEntry → Bool
  | [] => true
  | e :: rest => rest.all (entRelB tgt e) && wfB tgt rest

/-- The keys (paths) bound in a filesystem state. -/
def keysOf (s : FSState) : List FPath := s.map Prod.fst

/-- No strict ancestor of any entry's destination is occupied by a file in
the starting state (checked over the finitely many bound paths). -/
def ancB (tgt : FPath) (es : List TEntry) (s : FSState) : Bool :=
  es.all (fun e =>
    (keysOf s).all (fun q => !strictAnc q (destOf tgt e.rel) || !isFileB s q))

theorem isFileB_mem_keys {s : FSState} {q : FPath} (h : isFileB s q = true) :
    q ∈ keysOf s := by
  induction s with
  | nil => unfold isFileB lookupFS at h; cases h
  | cons b rest ih =>
    obtain ⟨k, n⟩ := b
    unfold isFileB at h
    rw [lookupFS_cons] at h
    by_cases hqk : q = k
    · rw [hqk]; exact List.mem_cons_self _ _
    · rw [if_neg hqk] at h
      exact List.mem_cons_of_mem _ (ih h)

theorem ancB_to_prop {tgt : FPath} {es : List TEntry} {s : FSState}
    (h : ancB tgt es s = true) :
    ∀ e ∈ es, ∀ q, strictAnc q (destOf tgt e.rel) = true → isFileB s q = false := by
  intro e he q hql
  cases hf : isFileB s q with
  | false => rfl
  | true =>
    exfalso
    have hmem := isFileB_mem_keys hf
    unfold ancB at h
    rw [List.all_eq_true] at h
    have h2 := h e he
    rw [List.all_eq_true] at h2
    have h3 := h2 q hmem
    rw [hql, hf] at h3
    simp at h3

theorem wfB_cons {tgt : FPath} {e : TEntry} {rest : List TEntry}
    (h : wfB tgt (e :: rest) = true) :
    (∀ b ∈ rest, entRelB tgt e b = true) ∧ wfB tgt rest = true := by
  unfold wfB at h
  rw [Bool.and_eq_true, List.all_eq_true] at h
  exact h

theorem entRelB_pfx {tgt : FPath} {a b : TEntry} (h : entRelB tgt a b = true) :
    isPfxOf (destOf tgt b.rel) (destOf tgt a.rel) = false := by
  unfold entRelB at h
  rw [Bool.and_eq_true] at h
  have h1 := h.1
  cases hx : isPfxOf (destOf tgt b.rel) (destOf tgt a.rel) with
  | false => rfl
  | true => rw [hx] at h1; simp at h1

theorem entRelB_anc {tgt : FPath} {a b : TEntry} (h : entRelB tgt a b = true)
    (hf : a.isFile = true) :
    strictAnc (destOf tgt a.rel) (destOf tgt b.rel) = false := by
  unfold entRelB at h
  rw [Bool.and_eq_true, Bool.or_eq_true] at h
  rcases h.2 with h2 | h2
  · rw [hf] at h2; simp at h2
  · cases hx : strictAnc (destOf tgt a.rel) (destOf tgt b.rel) with
    | false => rfl
    | true => rw [hx] at h2; simp at h2

/-- Simulation: from observationally equal states (on the entries'
destinations), the real walk and the dry walk produce the same statistics and
the same abort behaviour, provided the sequence is well formed and no strict
ancestor of a destination is occupied by a file on the real side. -/
theorem runEntries_sim (src : AssetSource) (tgt : FPath) :
    ∀ (es : List TEntry) (sR sD : FSState) (stats : Statistics),
      (∀ e ∈ es, lookupFS sR (destOf tgt e.rel) = lookupFS sD (destOf tgt e.rel)) →
      (∀ e ∈ es, ∀ q, strictAnc q (destOf tgt e.rel) = true → isFileB sR q = false) →
      wfB tgt es = true →
      (runEntries false src tgt es sR stats).2 = (runEntries true src tgt es sD stats).2 := by
  intro es
  induction es with
  | nil => intro sR sD stats _ _ _; rfl
  | cons e rest ih =>
    intro sR sD stats hagree hanc hwf
    obtain ⟨hwf1, hwfrest⟩ := wfB_cons hwf
    have hagrest : ∀ x ∈ rest,
        lookupFS sR (destOf tgt x.rel) = lookupFS sD (destOf tgt x.rel) :=
      fun x hx => hagree x (List.mem_cons_of_mem e hx)
    have hancrest : ∀ x ∈ rest, ∀ q, strictAnc q (destOf tgt x.rel) = true →
        isFileB sR q = false :=
      fun x hx => hanc x (List.mem_cons_of_mem e hx)
    cases e with
    | dir rel =>
      have hag0 : lookupFS sR (destOf tgt rel) = lookupFS sD (destOf tgt rel) :=
        hagree (TEntry.dir rel) (List.mem_cons_self _ _)
      have hanc0 : ∀ q, strictAnc q (destOf tgt rel) = true → isFileB sR q = false :=
        hanc (TEntry.dir rel) (List.mem_cons_self _ _)
      cases hd : lookupFS sR (destOf tgt rel) with
      | some node =>
        have hdD : lookupFS sD (destOf tgt rel) = some node := by rw [← hag0]; exact hd
        cases node with
        | dir m =>
          rw [runEntries_cons_step false src tgt (TEntry.dir rel) rest sR sR stats _
                (processDirectory_skip false sR stats (destOf tgt rel) m hd),
              runEntries_cons_step true src tgt (TEntry.dir rel) rest sD sD stats _
                (processDirectory_skip true sD stats (destOf tgt rel) m hdD)]
          exact ih sR sD _ hagrest hancrest hwfrest
        | file c m =>
          rw [runEntries_cons_abort false src tgt (TEntry.dir rel) rest sR sR stats _ _
                (processDirectory_conflict false sR stats (destOf tgt rel) c m hd),
              runEntries_cons_abort true src tgt (TEntry.dir rel) rest sD sD stats _ _
                (processDirectory_conflict true sD stats (destOf tgt rel) c m hdD)]
      | none =>
        have hdD : lookupFS sD (destOf tgt rel) = none := by rw [← hag0]; exact hd
        obtain ⟨sR', hcr⟩ := osCreateDir_ok getDefaultDirMode (isFileB_none hd) hanc0
        rw [runEntries_cons_step false src tgt (TEntry.dir rel) rest sR sR' stats _
              (processDirectory_create sR stats (destOf tgt rel) sR' hd hcr),
            runEntries_cons_step true src tgt (TEntry.dir rel) rest sD sD stats _
              (processDirectory_dryCreate sD stats (destOf tgt rel) hdD)]
        refine ih sR' sD _ ?_ ?_ hwfrest
        · intro x hx
          have hpf : isPfxOf (destOf tgt x.rel) (destOf tgt rel) = false :=
            entRelB_pfx (hwf1 x hx)
          rw [osCreateDir_lookup_unchanged hcr _ hpf]
          exact hagrest x hx
        · intro x hx q hql
          rw [osCreateDir_isFileB hcr q]
          exact hancrest x hx q hql
    | file rel =>
      have hag0 : lookupFS sR (destOf tgt rel) = lookupFS sD (destOf tgt rel) :=
        hagree (TEntry.file rel) (List.mem_cons_self _ _)
      have hanc0 : ∀ q, strictAnc q (destOf tgt rel) = true → isFileB sR q = false :=
        hanc (TEntry.file rel) (List.mem_cons_self _ _)
      cases hd : lookupFS sR (destOf tgt rel) with
      | some node =>
        have hdD : lookupFS sD (destOf tgt rel) = some node := by rw [← hag0]; exact hd
        cases node with
        | dir m =>
          rw [runEntries_cons_abort false src tgt (TEntry.file rel) rest sR sR stats _ _
                (processFile_conflict false src sR stats rel (destOf tgt rel) m hd),
              runEntries_cons_abort true src tgt (TEntry.file rel) rest sD sD stats _ _
                (processFile_conflict true src sD stats rel (destOf tgt rel) m hdD)]
        | file c m =>
          rw [runEntries_cons_step false src tgt (TEntry.file rel) rest sR sR stats _
                (processFile_skip false src sR stats rel (destOf tgt rel) c m hd),
              runEntries_cons_step true src tgt (TEntry.file rel) rest sD sD stats _
                (processFile_skip true src sD stats rel (destOf tgt rel) c m hdD)]
          exact ih sR sD _ hagrest hancrest hwfrest
      | none =>
        have hdD : lookupFS sD (destOf tgt rel) = none := by rw [← hag0]; exact hd
        cases hrd : src.readF rel with
        | error er =>
          rw [runEntries_cons_abort false src tgt (TEntry.file rel) rest sR sR stats _ _
                (processFile_readErr false src sR stats rel (destOf tgt rel) er hd hrd),
              runEntries_cons_abort true src tgt (TEntry.file rel) rest sD sD stats _ _
                (processFile_readErr true src sD stats rel (destOf tgt rel) er hdD hrd)]
        | ok content =>
          obtain ⟨sR', hcf⟩ :=
            osCreateFile_ok content (getDefaultFileMode rel) hd hanc0
          rw [runEntries_cons_step false src tgt (TEntry.file rel) rest sR sR' stats _
                (processFile_create src sR stats rel (destOf tgt rel) content sR' hd hrd hcf),
              runEntries_cons_step true src tgt (TEntry.file rel) rest sD sD stats _
                (processFile_dryCreate src sD stats rel (destOf tgt rel) content hdD hrd)]
          refine ih sR' sD _ ?_ ?_ hwfrest
          · intro x hx
            have hpf : isPfxOf (destOf tgt x.rel) (destOf tgt rel) = false :=
              entRelB_pfx (hwf1 x hx)
            rw [osCreateFile_lookup_unchanged hcf _ hpf]
            exact hagrest x hx
          · intro x hx q hql
            cases hfb : isFileB sR' q with
            | false => rfl
            | true =>
              exfalso
              rcases osCreateFile_isFileB hcf q hfb with hold | rfl
              · rw [hancrest x hx q hql] at hold; cases hold
              · have hanc2 : strictAnc (destOf tgt rel) (destOf tgt x.rel) = false :=
                  entRelB_anc (hwf1 x hx) rfl
                rw [hanc2] at hql
                cases hql

/-! ## Further helper lemmas for the claim theorems -/

theorem lookupFS_removeAllFS (s : FSState) (p : FPath) :
    lookupFS (removeAllFS s p) p = none := by
  induction s with
  | nil => rfl
  | cons b rest ih =>
    obtain ⟨k, n⟩ := b
    unfold removeAllFS
    by_cases hk : k = p
    · rw [if_pos hk]; exact ih
    · rw [if_neg hk, lookupFS_cons, if_neg (fun he => hk he.symm)]
      exact ih

theorem isPfxOf_nil_of {q : FPath} (h : isPfxOf q [] = true) : q = [] := by
  cases q with
  | nil => rfl
  | cons a as => cases h

theorem engineRun_success_elim (dry : Bool) (src : AssetSource) (tgt : FPath)
    (s : FSState) {s1 : FSState} {st1 : Statistics}
    (h : engineRun dry src tgt s = (s1, st1, RunResult.success)) :
    hasTemplates src = true ∧
    runEntries dry src tgt src.entries s initStats = (s1, st1, none) ∧
    st1.errors = [] := by
  unfold engineRun at h
  cases hT : hasTemplates src with
  | false => rw [hT] at h; simp at h
  | true =>
    rw [hT] at h
    simp only [if_true] at h
    cases hrun : runEntries dry src tgt src.entries s initStats with
    | mk s2 r2 =>
      cases r2 with
      | mk st2 r =>
        rw [hrun] at h
        cases r with
        | some e => simp at h
        | none =>
          have h' : (if st2.errors.isEmpty then (s2, st2, RunResult.success)
              else (s2, st2, RunResult.completedWithErrors st2.errors.length))
              = (s1, st1, RunResult.success) := h
          cases herr : st2.errors.isEmpty with
          | false => rw [herr] at h'; simp at h'
          | true =>
            rw [herr] at h'
            simp only [if_true, Prod.mk.injEq] at h'
            obtain ⟨h1, h2, -⟩ := h'
            subst h1
            subst h2
            exact ⟨rfl, rfl, List.isEmpty_iff.mp herr⟩

theorem engineRun_of_runEntries (dry : Bool) (src : AssetSource) (tgt : FPath)
    (s s1 : FSState) (st1 : Statistics)
    (hT : hasTemplates src = true)
    (hrun : runEntries dry src tgt src.entries s initStats = (s1, st1, none))
    (herr : st1.errors = []) :
    engineRun dry src tgt s = (s1, st1, RunResult.success) := by
  unfold engineRun
  rw [hT]
  simp only [if_true]
  rw [hrun]
  show (if st1.errors.isEmpty then (s1, st1, RunResult.success)
        else (s1, st1, RunResult.completedWithErrors st1.errors.length))
      = (s1, st1, RunResult.success)
  rw [herr]
  rfl

/-! ## Claim theorems -/

/-- C4: No destination file or directory that exists before a run starts is
modified, truncated or replaced by the run — any binding present at start is
present unchanged afterwards (content and kind intact) — and an existing file
is skipped on existence alone: the file-handling step with an existing
non-directory destination increments only the skip counter, changes nothing,
and its outcome is independent of the template source, so the template body
is never read or compared. -/
theorem claim_C4_no_overwrite :
    (∀ (dry : Bool) (src : AssetSource) (tgt : FPath) (s : FSState)
        (p : FPath) (n : FSNode),
        lookupFS s p = some n →
        lookupFS (engineRun dry src tgt s).1 p = some n) ∧
    (∀ (dry : Bool) (srcA srcB : AssetSource) (s : FSState) (stats : Statistics)
        (rel d : FPath) (c : String) (m : Nat),
        lookupFS s d = some (FSNode.file c m) →
        processFile dry srcA s stats rel d
            = (s, { stats with filesSkipped := stats.filesSkipped + 1 }, none) ∧
        processFile dry srcA s stats rel d = processFile dry srcB s stats rel d) := by
  constructor
  · intro dry src tgt s p n hp
    exact engineRun_preserve dry src tgt s p n hp
  · intro dry srcA srcB s stats rel d c m hm
    refine ⟨processFile_skip dry srcA s stats rel d c m hm, ?_⟩
    rw [processFile_skip dry srcA s stats rel d c m hm,
        processFile_skip dry srcB s stats rel d c m hm]

/-- Witness for C4 at a concrete input: a pre-existing file keeps its exact
content, kind and mode across a real run that would otherwise write it, and
the skip step is the same for two sources with different bodies. -/
theorem claim_C4_no_overwrite_witness :
    lookupFS (engineRun false ⟨[TEntry.file ["a"]], fun _ => .ok "new"⟩ ["t"]
        [(["t", ".claude", "a"], FSNode.file "old" 0o644)]).1
      ["t", ".claude", "a"] = some (FSNode.file "old" 0o644) ∧
    processFile false ⟨[], fun _ => .ok "X"⟩ [(["d"], FSNode.file "old" 0o600)]
        initStats ["r"] ["d"]
      = ([(["d"], FSNode.file "old" 0o600)],
          { initStats with filesSkipped := 1 }, none) := by
  constructor
  · exact claim_C4_no_overwrite.1 false ⟨[TEntry.file ["a"]], fun _ => .ok "new"⟩
      ["t"] [(["t", ".claude", "a"], FSNode.file "old" 0o644)]
      ["t", ".claude", "a"] (FSNode.file "old" 0o644) (by decide)
  · exact (claim_C4_no_overwrite.2 false ⟨[], fun _ => .ok "X"⟩ ⟨[], fun _ => .ok "Y"⟩
      [(["d"], FSNode.file "old" 0o600)] initStats ["r"] ["d"] "old" 0o600 (by decide)).1

/-- C8: Semantics of the real filesystem port. `createDirectory` succeeds
without mutation when a directory already occupies the path and fails with
the not-a-directory error when a non-directory does; `createFile` succeeds
without mutation when a non-directory occupies the path, fails with the
is-a-directory error when a directory does, and otherwise writes the full
content, creating the missing parent chain (as directories) when the parent
is absent, while preserving every pre-existing binding. -/
theorem claim_C8_port_semantics :
    (∀ (s : FSState) (p : FPath) (perm m : Nat),
        lookupFS s p = some (FSNode.dir m) → osCreateDir s p perm = .ok s) ∧
    (∀ (s : FSState) (p : FPath) (perm m : Nat) (c : String),
        lookupFS s p = some (FSNode.file c m) →
        osCreateDir s p perm = .error (FSErr.pathNotDir p)) ∧
    (∀ (s : FSState) (p : FPath) (perm m : Nat) (c c2 : String),
        lookupFS s p = some (FSNode.file c2 m) →
        osCreateFile s p c perm = .ok s) ∧
    (∀ (s : FSState) (p : FPath) (perm m : Nat) (c : String),
        lookupFS s p = some (FSNode.dir m) →
        osCreateFile s p c perm = .error (FSErr.pathIsDir p)) ∧
    (∀ (s : FSState) (p : FPath) (perm : Nat) (c : String),
        lookupFS s p = none →
        (∀ q ∈ keysOf s, strictAnc q p = true → isFileB s q = false) →
        ∃ s', osCreateFile s p c perm = .ok s' ∧
          lookupFS s' p = some (FSNode.file c perm) ∧
          (∀ q n, lookupFS s q = some n → lookupFS s' q = some n) ∧
          (lookupFS s p.dropLast = none →
            ∀ q, q ≠ [] → isPfxOf q p.dropLast = true → isDirB s' q = true)) := by
  refine ⟨?_, ?_, ?_, ?_, ?_⟩
  · intro s p perm m h
    unfold osCreateDir
    rw [h]
  · intro s p perm m c h
    unfold osCreateDir
    rw [h]
  · intro s p perm m c c2 h
    unfold osCreateFile
    rw [h]
  · intro s p perm m c h
    unfold osCreateFile
    rw [h]
  · intro s p perm c hp hancfin
    have hanc : ∀ q, strictAnc q p = true → isFileB s q = false := by
      intro q hq
      cases hf : isFileB s q with
      | false => rfl
      | true =>
        exfalso
        have := hancfin q (isFileB_mem_keys hf) hq
        rw [hf] at this
        cases this
    obtain ⟨s', hok⟩ := osCreateFile_ok c perm hp hanc
    refine ⟨s', hok, osCreateFile_lookup_self hp hok, osCreateFile_preserve hok, ?_⟩
    intro hparnone q hq0 hqpfx
    unfold osCreateFile at hok
    rw [hp] at hok
    cases hpar : osCreateDir s p.dropLast 0o755 with
    | error e => rw [hpar] at hok; cases hok
    | ok s2 =>
      rw [hpar] at hok
      cases hok
      unfold osCreateDir at hpar
      rw [hparnone] at hpar
      have hdirs := mkdirSteps_dirs 0o755 (prefixesUp p.dropLast) s s2 hpar q
        (mem_prefixesUp_of hqpfx hq0)
      have hqp : q ≠ p := by
        intro he
        subst he
        by_cases hpe : q = []
        · exact hq0 hpe
        · have hle := isPfxOf_length hqpfx
          rw [List.length_dropLast] at hle
          have : 0 < q.length := List.length_pos.mpr hpe
          omega
      obtain ⟨md, hmd⟩ := isDirB_iff.mp hdirs
      refine isDirB_iff.mpr ⟨md, ?_⟩
      rw [lookupFS_cons, if_neg hqp]
      exact hmd

/-- Witness for C8 at concrete inputs: each clause of the port contract
evaluated on explicit small states. -/
theorem claim_C8_port_semantics_witness :
    osCreateDir [(["t"], FSNode.dir 0o700)] ["t"] 0o755 = .ok [(["t"], FSNode.dir 0o700)] ∧
    osCreateDir [(["t"], FSNode.file "x" 0o644)] ["t"] 0o755
      = .error (FSErr.pathNotDir ["t"]) ∧
    osCreateFile [(["t"], FSNode.file "x" 0o644)] ["t"] "y" 0o644
      = .ok [(["t"], FSNode.file "x" 0o644)] ∧
    osCreateFile [(["t"], FSNode.dir 0o700)] ["t"] "y" 0o644
      = .error (FSErr.pathIsDir ["t"]) ∧
    ∃ s', osCreateFile [(["t"], FSNode.dir 0o755)] ["t", "sub", "f"] "body" 0o644 = .ok s' ∧
      lookupFS s' ["t", "sub", "f"] = some (FSNode.file "body" 0o644) ∧
      (∀ q n, lookupFS [(["t"], FSNode.dir 0o755)] q = some n → lookupFS s' q = some n) ∧
      (lookupFS [(["t"], FSNode.dir 0o755)] (["t", "sub", "f"] : FPath).dropLast = none →
        ∀ q, q ≠ [] → isPfxOf q (["t", "sub", "f"] : FPath).dropLast = true →
          isDirB s' q = true) := by
  refine ⟨?_, ?_, ?_, ?_, ?_⟩
  · exact claim_C8_port_semantics.1 _ _ 0o755 0o700 (by decide)
  · exact claim_C8_port_semantics.2.1 _ _ 0o755 0o644 "x" (by decide)
  · exact claim_C8_port_semantics.2.2.1 _ _ 0o644 0o644 "y" "x" (by decide)
  · exact claim_C8_port_semantics.2.2.2.1 _ _ 0o644 0o700 "y" (by decide)
  · exact claim_C8_port_semantics.2.2.2.2 _ _ 0o644 "body" (by decide) (by decide)

/-- C9: A missing or empty template tree makes `HasTemplates` report `false`
(never an error), and `Engine.Run` then fails immediately with the fatal
no-templates outcome: the state is untouched and the statistics are still the
zero initial statistics, so no entry was processed. -/
theorem claim_C9_no_templates (dry : Bool) (src : AssetSource) (tgt : FPath)
    (s : FSState) :
    (src.entries = [] → hasTemplates src = false) ∧
    (hasTemplates src = false →
      engineRun dry src tgt s = (s, initStats, RunResult.noTemplates)) := by
  constructor
  · intro h
    unfold hasTemplates
    rw [h]
    rfl
  · intro h
    unfold engineRun
    rw [h]
    rfl

/-- Witness for C9: the empty asset source on a concrete state. -/
theorem claim_C9_no_templates_witness :
    hasTemplates ⟨[], fun _ => .error (.readFailed [])⟩ = false ∧
    engineRun false ⟨[], fun _ => .error (.readFailed [])⟩ ["t"]
        [(["t"], FSNode.dir 0o755)]
      = ([(["t"], FSNode.dir 0o755)], initStats, RunResult.noTemplates) := by
  have h := claim_C9_no_templates false ⟨[], fun _ => .error (.readFailed [])⟩
    ["t"] [(["t"], FSNode.dir 0o755)]
  exact ⟨h.1 rfl, h.2 (h.1 rfl)⟩

/-- C10: Before a non-dry-run deployment, `validateConfig` probes the target
with a file named `.cc-init-test` and removes it: whenever validation
succeeds, that path is absent from the resulting state; and when a file with
that exact name already exists in the target directory, the probe truncates
it in place (same path, same mode, empty content) before the removal, so the
pre-existing file does not survive a successful validation. -/
theorem claim_C10_write_probe (s : FSState) (tgt : FPath) :
    (∀ s', validateConfig s tgt false = .ok s' →
      lookupFS s' (tgt ++ [testFileName]) = none) ∧
    (∀ (c : String) (mp m : Nat),
      lookupFS s tgt = some (FSNode.dir m) →
      lookupFS s (tgt ++ [testFileName]) = some (FSNode.file c mp) →
      osCreate s (tgt ++ [testFileName])
          = .ok ((tgt ++ [testFileName], FSNode.file "" mp) :: s) ∧
      validateConfig s tgt false
          = .ok (removeAllFS ((tgt ++ [testFileName], FSNode.file "" mp) :: s)
              (tgt ++ [testFileName]))) := by
  constructor
  · intro s' h
    unfold validateConfig at h
    cases ht : lookupFS s tgt with
    | none => rw [ht] at h; cases h
    | some node =>
      rw [ht] at h
      cases node with
      | file c m => cases h
      | dir m =>
        simp only [Bool.false_eq_true, if_false] at h
        cases hc : osCreate s (tgt ++ [testFileName]) with
        | error e => rw [hc] at h; cases h
        | ok s2 =>
          rw [hc] at h
          cases h
          exact lookupFS_removeAllFS s2 (tgt ++ [testFileName])
  · intro c mp m ht hf
    have hcreate : osCreate s (tgt ++ [testFileName])
        = .ok ((tgt ++ [testFileName], FSNode.file "" mp) :: s) := by
      unfold osCreate
      rw [hf]
    refine ⟨hcreate, ?_⟩
    unfold validateConfig
    rw [ht]
    simp only [Bool.false_eq_true, if_false]
    rw [hcreate]

/-- Witness for C10: a target containing a stale `.cc-init-test` file; the
probe truncates it and validation leaves no such file behind. -/
theorem claim_C10_write_probe_witness :
    osCreate [(["t"], FSNode.dir 0o755), (["t", ".cc-init-test"], FSNode.file "keep" 0o600)]
        (["t"] ++ [testFileName])
      = .ok ((["t"] ++ [testFileName], FSNode.file "" 0o600)
          :: [(["t"], FSNode.dir 0o755), (["t", ".cc-init-test"], FSNode.file "keep" 0o600)]) ∧
    ∀ s', validateConfig
        [(["t"], FSNode.dir 0o755), (["t", ".cc-init-test"], FSNode.file "keep" 0o600)]
        ["t"] false = .ok s' →
      lookupFS s' (["t"] ++ [testFileName]) = none := by
  have h := claim_C10_write_probe
    [(["t"], FSNode.dir 0o755), (["t", ".cc-init-test"], FSNode.file "keep" 0o600)] ["t"]
  refine ⟨?_, h.1⟩
  exact (h.2 "keep" 0o600 0o755 (by decide) (by decide)).1

/-- Engine run for the C1 failing input: a two-file asset source whose first
destination is occupied by a directory. -/
def c1Run : FSState × Statistics × RunResult :=
  engineRun false ⟨[TEntry.file ["a"], TEntry.file ["b"]], fun _ => .ok "x"⟩ ["t"]
    [(["t"], FSNode.dir 0o755), (["t", ".claude"], FSNode.dir 0o755),
     (["t", ".claude", "a"], FSNode.dir 0o755)]

/-- C1 (evaluation at the failing input): the kind-conflict on entry `a` is
appended to the error list, but the walk callback returns the error, so
`fs.WalkDir` aborts: entry `b` is never visited (nothing is created for it
and no counter moves), and the run ends as an aborted walk instead of
continuing to the next entry. -/
theorem claim_C1_conflict_aborts_walk :
    c1Run.2.1.errors = [FSErr.pathIsDir ["t", ".claude", "a"]] ∧
    c1Run.2.2 = RunResult.walkAborted (FSErr.pathIsDir ["t", ".claude", "a"]) ∧
    lookupFS c1Run.1 ["t", ".claude", "b"] = none ∧
    c1Run.2.1.filesCreated = 0 ∧
    c1Run.2.1.filesSkipped = 0 := by
  decide

/-- The embedded file list for the C2 failing input: a file outside the
`.claude` template root next to one inside it. -/
def c2Embed : List (FPath × String) := [(["secret"], "s"), ([".claude", "a"], "x")]

/-- C2 (evaluation at the failing input): `TemplateManager.ReadFile` performs
no validation: a relative path with a parent-traversal segment is joined,
lexically cleaned to a path outside the template root, and the read is
carried out and returns that outside file's content — no
`UnsafeAssetPathError` exists and nothing is rejected before the filesystem
call. -/
theorem claim_C2_traversal_not_rejected :
    tmReadFile c2Embed [".claude"] ["..", "secret"] = .ok "s" ∧
    cleanSegs ([".claude"] ++ ["..", "secret"]) = ["secret"] ∧
    isPfxOf [".claude"] ["secret"] = false :=
  ⟨rfl, rfl, rfl⟩

/-- Engine run for the C3 failing input: an asset entry whose relative path
carries two parent-traversal segments. -/
def c3Run : FSState × Statistics × RunResult :=
  engineRun false ⟨[TEntry.dir ["..", "..", "evil"]], fun _ => .error (.readFailed [])⟩
    ["home", "u"]
    [(["home", "u"], FSNode.dir 0o755), (["home", "u", ".claude"], FSNode.dir 0o755)]

/-- C3 (evaluation at the failing input): the engine computes the destination
by a cleaning join and performs no containment check: a traversal entry
resolves outside the target root, the directory is created there, and the
run reports success — no fatal path-escape error aborts it. -/
theorem claim_C3_escape_not_checked :
    destOf ["home", "u"] ["..", "..", "evil"] = ["home", "evil"] ∧
    isPfxOf ["home", "u"] ["home", "evil"] = false ∧
    lookupFS c3Run.1 ["home", "evil"] = some (FSNode.dir 0o755) ∧
    c3Run.2.2 = RunResult.success := by
  decide

/-- The asset source of the C5 counterexample. -/
def c5Src : AssetSource := ⟨[TEntry.dir ["d"], TEntry.file ["f"]], fun _ => .ok "x"⟩

/-- Starting state of the C5 counterexample: the destination of `f` already
exists as a file of the same kind. -/
def c5S0 : FSState :=
  [(["t"], FSNode.dir 0o755), (["t", ".claude"], FSNode.dir 0o755),
   (["t", ".claude", "f"], FSNode.file "old" 0o644)]

/-- First and second runs of the C5 counterexample. -/
def c5Run1 : FSState × Statistics × RunResult := engineRun false c5Src ["t"] c5S0

/-- Second run of the C5 counterexample, from the first run's final state. -/
def c5Run2 : FSState × Statistics × RunResult := engineRun false c5Src ["t"] c5Run1.1

/-- Counterexample to C5 as stated: when the target already contains one of
the entries, the second run still creates nothing, but its skipped count (2)
is the total number of entries, not the first run's created count (1). -/
theorem claim_C5_counterexample :
    c5Run1.2.2 = RunResult.success ∧
    c5Run1.2.1.filesCreated + c5Run1.2.1.dirsCreated = 1 ∧
    c5Run2.2.1.filesCreated = 0 ∧
    c5Run2.2.1.dirsCreated = 0 ∧
    c5Run2.2.1.filesSkipped + c5Run2.2.1.dirsSkipped = 2 ∧
    ¬(c5Run2.2.1.filesSkipped + c5Run2.2.1.dirsSkipped
        = c5Run1.2.1.filesCreated + c5Run1.2.1.dirsCreated) := by
  decide

/-- C5 (amended): running the engine twice in succession is idempotent — the
second run creates zero files and zero directories and ends in success, and
its per-kind skipped counts equal the first run's created plus skipped
counts (equivalently, the total number of entries of that kind); the second
run's skipped count equals the first run's created count exactly when the
first run skipped nothing. -/
theorem claim_C5_amended (src : AssetSource) (tgt : FPath) (s s1 : FSState)
    (st1 : Statistics)
    (hne : ∀ e ∈ src.entries, destOf tgt e.rel ≠ [])
    (h1 : engineRun false src tgt s = (s1, st1, RunResult.success)) :
    ∃ st2, engineRun false src tgt s1 = (s1, st2, RunResult.success) ∧
      st2.filesCreated = 0 ∧ st2.dirsCreated = 0 ∧
      st2.filesSkipped = st1.filesCreated + st1.filesSkipped ∧
      st2.dirsSkipped = st1.dirsCreated + st1.dirsSkipped := by
  obtain ⟨hT, hrun, herr⟩ := engineRun_success_elim false src tgt s h1
  have hkinds := runEntries_kinds src tgt src.entries s s1 initStats st1 hrun hne
  have hskips := runEntries_skips false src tgt src.entries s1 initStats hkinds
  have hcounts := runEntries_counts false src tgt src.entries s s1 initStats st1 hrun
  obtain ⟨hcf, hcd, -⟩ := hcounts
  simp only [initStats] at hcf hcd
  refine ⟨_, engineRun_of_runEntries false src tgt s1 s1 _ hT hskips rfl, rfl, rfl, ?_, ?_⟩
  · show initStats.filesSkipped + countFilesL src.entries
        = st1.filesCreated + st1.filesSkipped
    simp only [initStats]
    omega
  · show initStats.dirsSkipped + countDirsL src.entries
        = st1.dirsCreated + st1.dirsSkipped
    simp only [initStats]
    omega

/-- The asset source and start state of the C5 amended-claim witness. -/
def c5wSrc : AssetSource :=
  ⟨[TEntry.dir ["commands"], TEntry.file ["commands", "ask.md"],
    TEntry.file ["settings.json"]], fun _ => .ok "hello"⟩

/-- First run of the C5 witness scenario from an empty target. -/
def c5wRun : FSState × Statistics × RunResult :=
  engineRun false c5wSrc ["t"] [(["t"], FSNode.dir 0o755)]

/-- Witness for the amended C5 at a concrete input. -/
theorem claim_C5_amended_witness :
    ∃ st2, engineRun false c5wSrc ["t"] c5wRun.1 = (c5wRun.1, st2, RunResult.success) ∧
      st2.filesCreated = 0 ∧ st2.dirsCreated = 0 ∧
      st2.filesSkipped = c5wRun.2.1.filesCreated + c5wRun.2.1.filesSkipped ∧
      st2.dirsSkipped = c5wRun.2.1.dirsCreated + c5wRun.2.1.dirsSkipped :=
  claim_C5_amended c5wSrc ["t"] [(["t"], FSNode.dir 0o755)] c5wRun.1 c5wRun.2.1
    (by decide) (by decide)

/-- C6: every run that completes the walk (no fatal abort) ends with
files-created + files-skipped equal to the number of file entries and
dirs-created + dirs-skipped equal to the number of directory entries of the
asset source. -/
theorem claim_C6_completeness (dry : Bool) (src : AssetSource) (tgt : FPath)
    (s s1 : FSState) (st1 : Statistics) (r : RunResult)
    (h : engineRun dry src tgt s = (s1, st1, r))
    (hc : r.completed = true) :
    st1.filesCreated + st1.filesSkipped = countFilesL src.entries ∧
    st1.dirsCreated + st1.dirsSkipped = countDirsL src.entries := by
  unfold engineRun at h
  cases hT : hasTemplates src with
  | false =>
    rw [hT] at h
    simp only [Bool.false_eq_true, if_false, Prod.mk.injEq] at h
    obtain ⟨-, -, hr⟩ := h
    rw [← hr] at hc
    simp [RunResult.completed] at hc
  | true =>
    rw [hT] at h
    simp only [if_true] at h
    cases hrun : runEntries dry src tgt src.entries s initStats with
    | mk s2 r2 =>
      cases r2 with
      | mk st2 rr =>
        rw [hrun] at h
        cases rr with
        | some e =>
          simp only [Prod.mk.injEq] at h
          obtain ⟨-, -, hr⟩ := h
          rw [← hr] at hc
          simp [RunResult.completed] at hc
        | none =>
          have h' : (if st2.errors.isEmpty then (s2, st2, RunResult.success)
              else (s2, st2, RunResult.completedWithErrors st2.errors.length))
              = (s1, st1, r) := h
          have hcounts := runEntries_counts dry src tgt src.entries s s2 initStats st2 hrun
          obtain ⟨h1c, h2c, -⟩ := hcounts
          simp only [initStats] at h1c h2c
          cases herr : st2.errors.isEmpty with
          | true =>
            rw [herr] at h'
            simp only [if_true, Prod.mk.injEq] at h'
            obtain ⟨-, hst, -⟩ := h'
            subst hst
            exact ⟨by omega, by omega⟩
          | false =>
            rw [herr] at h'
            simp only [Bool.false_eq_true, if_false, Prod.mk.injEq] at h'
            obtain ⟨-, hst, -⟩ := h'
            subst hst
            exact ⟨by omega, by omega⟩

/-- The run of the C6 witness: the spec's concrete scenario on an empty
target. -/
def c6Run : FSState × Statistics × RunResult :=
  engineRun false
    ⟨[TEntry.dir ["commands"], TEntry.file ["commands", "ask.md"],
      TEntry.file ["settings.json"]],
     fun r => if r = ["commands", "ask.md"] then .ok "hello"
              else if r = ["settings.json"] then .ok "\x7b\x7d"
              else .error (.readFailed r)⟩
    ["t"] [(["t"], FSNode.dir 0o755)]

/-- Witness for C6 at the spec's concrete scenario (2 files, 1 directory). -/
theorem claim_C6_completeness_witness :
    c6Run.2.1.filesCreated + c6Run.2.1.filesSkipped = 2 ∧
    c6Run.2.1.dirsCreated + c6Run.2.1.dirsSkipped = 1 := by
  have h := claim_C6_completeness false
    ⟨[TEntry.dir ["commands"], TEntry.file ["commands", "ask.md"],
      TEntry.file ["settings.json"]],
     fun r => if r = ["commands", "ask.md"] then .ok "hello"
              else if r = ["settings.json"] then .ok "\x7b\x7d"
              else .error (.readFailed r)⟩
    ["t"] [(["t"], FSNode.dir 0o755)] c6Run.1 c6Run.2.1 c6Run.2.2
    (by decide) (by decide)
  exact h

/-- The asset source and start state of the C7 counterexample: the `.claude`
subtree root is occupied by a file in the starting state. -/
def c7Src : AssetSource := ⟨[TEntry.dir ["commands"]], fun _ => .ok "x"⟩

/-- Starting state of the C7 counterexample. -/
def c7S0 : FSState := [(["t"], FSNode.dir 0o755), (["t", ".claude"], FSNode.file "x" 0o644)]

/-- Counterexample to C7 as stated: from this starting state the dry run
reports one would-be created directory and success, while the real run's
`os.MkdirAll` fails on the file at `.claude`, accumulates an error and
aborts — the dry run's decisions and statistics do not match the real run's
(the dry run itself still mutates nothing). -/
theorem claim_C7_counterexample :
    (engineRun true c7Src ["t"] c7S0).1 = c7S0 ∧
    (engineRun true c7Src ["t"] c7S0).2.1.dirsCreated = 1 ∧
    (engineRun true c7Src ["t"] c7S0).2.2 = RunResult.success ∧
    (engineRun false c7Src ["t"] c7S0).2.1.dirsCreated = 0 ∧
    (engineRun false c7Src ["t"] c7S0).2.2
      = RunResult.walkAborted (FSErr.mkdirNotDir ["t", ".claude"]) ∧
    (engineRun true c7Src ["t"] c7S0).2.1 ≠ (engineRun false c7Src ["t"] c7S0).2.1 := by
  decide

/-- C7 (amended): a dry run never mutates the starting state; and whenever
the walk sequence is well formed (as the embedded walk always is: no
duplicate destinations, parents before children, files childless) and no
strict ancestor of any destination is occupied by a file in the starting
state, the dry run's statistics and outcome are identical to the real run's
from the same state. -/
theorem claim_C7_amended (src : AssetSource) (tgt : FPath) (s : FSState)
    (hwf : wfB tgt src.entries = true)
    (hanc : ancB tgt src.entries s = true) :
    (engineRun true src tgt s).1 = s ∧
    (engineRun true src tgt s).2 = (engineRun false src tgt s).2 := by
  refine ⟨engineRun_dry_state src tgt s, ?_⟩
  have hsim := runEntries_sim src tgt src.entries s s initStats
    (fun e _ => rfl) (ancB_to_prop hanc) hwf
  unfold engineRun
  cases hT : hasTemplates src with
  | false => rfl
  | true =>
    simp only [if_true]
    cases hrunR : runEntries false src tgt src.entries s initStats with
    | mk sR r2 =>
      cases r2 with
      | mk stR rR =>
        cases hrunD : runEntries true src tgt src.entries s initStats with
        | mk sD r3 =>
          cases r3 with
          | mk stD rD =>
            rw [hrunR, hrunD] at hsim
            simp only [Prod.mk.injEq] at hsim
            obtain ⟨hst, hr⟩ := hsim
            subst hst
            subst hr
            cases rR with
            | some e => rfl
            | none =>
              cases herr : stR.errors.isEmpty <;> simp [herr]

/-- The asset source of the C7 amended-claim witness. -/
def c7wSrc : AssetSource :=
  ⟨[TEntry.dir ["commands"], TEntry.file ["commands", "ask.md"],
    TEntry.file ["settings.json"]], fun _ => .ok "hello"⟩

/-- Witness for the amended C7 at a concrete input: the spec's scenario
source on an empty target reports identical statistics dry and real, and the
dry state is untouched. -/
theorem claim_C7_amended_witness :
    (engineRun true c7wSrc ["t"] [(["t"], FSNode.dir 0o755)]).1
        = [(["t"], FSNode.dir 0o755)] ∧
    (engineRun true c7wSrc ["t"] [(["t"], FSNode.dir 0o755)]).2
        = (engineRun false c7wSrc ["t"] [(["t"], FSNode.dir 0o755)]).2 :=
  claim_C7_amended c7wSrc ["t"] [(["t"], FSNode.dir 0o755)] (by decide) (by decide)
